import Mathlib

/-
Verification of the relational-to-graph migration logic of
scripts/migrate_to_neo4j.py (class Neo4jMigrator).

The embedding models:
  - pandas dataframes as a column list plus rows of association lists;
    row.get returns a null cell for a missing column, while row[col] and
    df[col] raise KeyError for a missing column;
  - the Neo4j store as a list of nodes, each keyed by label plus one key
    property, and a list of directed edges; the Cypher queries the script
    issues become explicit operations with MERGE upsert semantics;
  - session.run as an operation executor parameterised by a failure oracle,
    recording every executed operation in a trace; a raised store error
    carries the state reached so far, since the script performs no rollback.

Cell values are opaque tagged scalars; the script's int()/float()/bool()
re-taggings do not affect any verified property and are modelled as the
identity on the stored value.
-/

inductive Value where
  | str (s : String)
  | int (n : Int)
deriving DecidableEq, Repr

/-- Python str() of a cell value, as used on the delimited list columns. -/
def Value.toStr : Value → String
  | .str s => s
  | .int n => toString n

abbrev Cell := Option Value

structure Row where
  cells : List (String × Cell)
deriving DecidableEq, Repr

def Row.find? (r : Row) (c : String) : Option Cell :=
  (r.cells.find? (fun p => p.1 = c)).map (fun p => p.2)

/-- pandas row.get(col): a missing column yields None, i.e. a null cell. -/
def Row.get (r : Row) (c : String) : Cell :=
  (r.find? c).join

/-- pandas row[col]: raises KeyError when the column is absent. -/
def Row.item (r : Row) (c : String) : Except String Cell :=
  match r.find? c with
  | none => .error ("KeyError: " ++ c)
  | some v => .ok v

structure DataFrame where
  columns : List String
  rows : List Row
deriving DecidableEq, Repr

/-- pandas df[col] as the list of that column's cells; KeyError when absent. -/
def DataFrame.col (df : DataFrame) (c : String) : Except String (List Cell) :=
  if c ∈ df.columns then .ok (df.rows.map (fun r => r.get c))
  else .error ("KeyError: " ++ c)

/-- pandas df[[c1, c2]] as a list of cell pairs; KeyError when either column
is absent. -/
def DataFrame.colPair (df : DataFrame) (c₁ c₂ : String) : Except String (List (Cell × Cell)) :=
  if c₁ ∈ df.columns ∧ c₂ ∈ df.columns then
    .ok (df.rows.map (fun r => (r.get c₁, r.get c₂)))
  else .error ("KeyError: " ++ c₁ ++ "/" ++ c₂)

def dedupFirstAux [DecidableEq α] (seen : List α) : List α → List α
  | [] => []
  | x :: xs => if x ∈ seen then dedupFirstAux seen xs else x :: dedupFirstAux (x :: seen) xs

/-- pandas unique / drop_duplicates: keep the first occurrence of each value. -/
def dedupFirst [DecidableEq α] (l : List α) : List α := dedupFirstAux [] l

/-- Whitespace characters stripped by Python str.strip(). -/
def isSpaceCh (c : Char) : Bool := c = ' ' || c = '\t' || c = '\n' || c = '\r'

/-- Python split(",") on the character list of a string. -/
def splitCommaCore : List Char → List Char → List (List Char)
  | [], acc => [acc.reverse]
  | c :: cs, acc =>
    if c = ',' then acc.reverse :: splitCommaCore cs [] else splitCommaCore cs (c :: acc)

/-- Python str.strip(): drop leading and trailing whitespace. -/
def trimChars (cs : List Char) : List Char :=
  ((cs.dropWhile isSpaceCh).reverse.dropWhile isSpaceCh).reverse

/-- The token list "dep.strip() for dep in str(v).split(given comma)". -/
def depTokens (v : Value) : List String :=
  (splitCommaCore v.toStr.data []).map (fun cs => String.mk (trimChars cs))

/- ## The graph store -/

structure NodeId where
  label : String
  keyProp : String
  keyVal : Value
deriving DecidableEq, Repr

structure GNode where
  id : NodeId
  props : List (String × Cell)
deriving DecidableEq, Repr

structure Edge where
  src : NodeId
  rel : String
  dst : NodeId
deriving DecidableEq, Repr

structure GraphDB where
  nodes : List GNode
  edges : List Edge
deriving DecidableEq, Repr

def emptyDB : GraphDB := ⟨[], []⟩

def GraphDB.nodeExists (g : GraphDB) (i : NodeId) : Bool :=
  g.nodes.any (fun n => n.id = i)

def setProp (ps : List (String × Cell)) (k : String) (v : Cell) : List (String × Cell) :=
  if ps.any (fun p => p.1 = k) then ps.map (fun p => if p.1 = k then (k, v) else p)
  else ps ++ [(k, v)]

/-- Cypher SET semantics: each listed property overwrites or is added. -/
def setProps (ps new : List (String × Cell)) : List (String × Cell) :=
  new.foldl (fun acc p => setProp acc p.1 p.2) ps

/-- Cypher MERGE of a node by label and key property, followed by SET of the
given properties: update the matched node, or append a fresh one. -/
def GraphDB.mergeNode (g : GraphDB) (i : NodeId) (props : List (String × Cell)) : GraphDB :=
  if g.nodeExists i then
    { g with nodes := g.nodes.map (fun n => if n.id = i then ⟨n.id, setProps n.props props⟩ else n) }
  else
    { g with nodes := g.nodes ++ [⟨i, props⟩] }

/-- Cypher MERGE of an edge between two already-bound endpoints: create it
only when absent. -/
def GraphDB.mergeEdge (g : GraphDB) (e : Edge) : GraphDB :=
  if e ∈ g.edges then g else { g with edges := g.edges ++ [e] }

/- ## The write queries the script issues -/

inductive Op where
  | clear
  | constraint (label attr : String)
  | mergeNode (i : NodeId) (props : List (String × Cell))
  | mmEdge (a : NodeId) (rel : String) (b : NodeId)
  | depEdge (a : NodeId) (rel : String) (b : NodeId)
deriving DecidableEq, Repr

/-- Effect of one query on the store. mmEdge is MATCH a, MATCH b, MERGE edge:
when either endpoint is missing the MATCH yields zero rows and nothing
happens. depEdge is MATCH a, MERGE node b, MERGE edge: when a is missing
nothing happens, otherwise b is upserted and the edge merged. -/
def applyOp (op : Op) (g : GraphDB) : GraphDB :=
  match op with
  | .clear => emptyDB
  | .constraint _ _ => g
  | .mergeNode i props => g.mergeNode i props
  | .mmEdge a rel b => if g.nodeExists a && g.nodeExists b then g.mergeEdge ⟨a, rel, b⟩ else g
  | .depEdge a rel b => if g.nodeExists a then (g.mergeNode b []).mergeEdge ⟨a, rel, b⟩ else g

def applyOps (ops : List Op) (g : GraphDB) : GraphDB :=
  ops.foldl (fun acc op => applyOp op acc) g

/-- Environment oracle: true means session.run raises on this query. -/
abbrev Oracle := Op → Bool

def noFail : Oracle := fun _ => false

structure RunSt where
  g : GraphDB
  trace : List Op
deriving DecidableEq, Repr

/-- Outcome of a run: on error the state reached so far is kept, since the
script performs no rollback. -/
inductive RunResult where
  | ok (st : RunSt)
  | err (msg : String) (st : RunSt)
deriving DecidableEq, Repr

/-- session.run of one write query. -/
def execOp (oracle : Oracle) (op : Op) (st : RunSt) : RunResult :=
  if oracle op then .err "store failure" st
  else .ok ⟨applyOp op st.g, st.trace ++ [op]⟩

def RunResult.step (r : RunResult) (f : RunSt → RunResult) : RunResult :=
  match r with
  | .ok st => f st
  | .err m st => .err m st

def runList (f : α → RunSt → RunResult) (l : List α) (st : RunSt) : RunResult :=
  l.foldl (fun r a => r.step (f a)) (.ok st)

/-- Lift a pandas-level computation: its exception aborts the run. -/
def liftE (e : Except String β) (f : β → RunSt → RunResult) (st : RunSt) : RunResult :=
  match e with
  | .error m => .err m st
  | .ok b => f b st

/- ## Neo4jMigrator methods -/

def clear_database (oracle : Oracle) (st : RunSt) : RunResult :=
  execOp oracle .clear st

/-- The seven uniqueness constraints declared at lines 34-42 of the script. -/
def constraintOps : List Op :=
  [ .constraint "Application" "app_id",
    .constraint "Application" "name",
    .constraint "Category" "name",
    .constraint "Subcategory" "name",
    .constraint "Vendor" "name",
    .constraint "Department" "name",
    .constraint "Person" "name" ]

/-- One iteration of the constraint loop: session.run inside try, a failure
is logged as a warning and the loop continues. -/
def runCatch (oracle : Oracle) (st : RunSt) (op : Op) : RunSt :=
  if oracle op then st else ⟨applyOp op st.g, st.trace ++ [op]⟩

def create_constraints_and_indexes (oracle : Oracle) (st : RunSt) : RunResult :=
  .ok (constraintOps.foldl (runCatch oracle) st)

/-- The 24 properties read with row[col] in create_application_nodes,
as (property name, column name) pairs, in source order. -/
def appPropCols : List (String × String) :=
  [("name", "app_name"), ("description", "app_description"), ("version", "app_version"),
   ("annual_cost", "annual_cost"), ("license_type", "license_type"),
   ("cost_center", "cost_center"), ("in_use", "in_use"), ("user_count", "user_count"),
   ("deployment_type", "deployment_type"), ("environment", "environment"),
   ("platform", "platform"), ("programming_language", "programming_language"),
   ("database_type", "database_type"), ("compliance_requirements", "compliance_requirements"),
   ("security_classification", "security_classification"),
   ("data_sensitivity", "data_sensitivity"), ("installation_date", "installation_date"),
   ("last_updated", "last_updated"), ("end_of_life_date", "end_of_life_date"),
   ("renewal_date", "renewal_date"), ("uptime_sla", "uptime_sla"),
   ("criticality", "criticality"), ("tags", "tags"), ("notes", "notes")]

def appProps (r : Row) : Except String (List (String × Cell)) := do
  let main ← appPropCols.mapM (fun pc => do
    let v ← r.item pc.2
    pure (pc.1, v))
  pure (main ++ [("created_at", r.get "created_at"), ("updated_at", r.get "updated_at")])

def appId (v : Value) : NodeId := ⟨"Application", "app_id", v⟩
def catId (v : Value) : NodeId := ⟨"Category", "name", v⟩
def subcatId (v : Value) : NodeId := ⟨"Subcategory", "name", v⟩
def vendorId (v : Value) : NodeId := ⟨"Vendor", "name", v⟩
def deptId (v : Value) : NodeId := ⟨"Department", "name", v⟩
def personId (v : Value) : NodeId := ⟨"Person", "name", v⟩
def extId (s : String) : NodeId := ⟨"ExternalApp", "name", .str s⟩

/-- One row of create_application_nodes: skip when row.get returns a null
app_id, else MERGE the Application node and SET all mapped properties. -/
def appRow (oracle : Oracle) (r : Row) (st : RunSt) : RunResult :=
  match r.get "app_id" with
  | none => .ok st
  | some v => liftE (appProps r) (fun props => execOp oracle (.mergeNode (appId v) props)) st

def create_application_nodes (oracle : Oracle) (df : DataFrame) (st : RunSt) : RunResult :=
  runList (appRow oracle) df.rows st

def mainCatStep (oracle : Oracle) (v : Value) : RunSt → RunResult :=
  execOp oracle (.mergeNode (catId v) [("type", some (.str "main"))])

/-- One row of the subcategory loop: MERGE the Subcategory node when the
subcategory cell is non-null, and the BELONGS_TO edge when the category cell
is also non-null. -/
def subcatStep (oracle : Oracle) (p : Cell × Cell) (st : RunSt) : RunResult :=
  match p.2 with
  | none => .ok st
  | some sub =>
    (execOp oracle (.mergeNode (subcatId sub) []) st).step (fun st₁ =>
      match p.1 with
      | none => .ok st₁
      | some cat => execOp oracle (.mmEdge (subcatId sub) "BELONGS_TO" (catId cat)) st₁)

def create_category_nodes (oracle : Oracle) (df : DataFrame) (st : RunSt) : RunResult :=
  liftE (df.colPair "category" "subcategory") (fun pairs st₀ =>
    liftE (df.col "category") (fun catCells st₁ =>
      (runList (mainCatStep oracle) (dedupFirst (catCells.filterMap id)) st₁).step
        (runList (subcatStep oracle) (dedupFirst pairs))) st₀) st

def vendorStep (oracle : Oracle) (p : Cell × Cell) (st : RunSt) : RunResult :=
  match p.1 with
  | none => .ok st
  | some nm => execOp oracle (.mergeNode (vendorId nm) [("contact_email", p.2)]) st

def create_vendor_nodes (oracle : Oracle) (df : DataFrame) (st : RunSt) : RunResult :=
  liftE (df.colPair "vendor_name" "vendor_contact_email") (fun pairs =>
    runList (vendorStep oracle) (dedupFirst (pairs.filter (fun p => p.1.isSome)))) st

def create_department_nodes (oracle : Oracle) (df : DataFrame) (st : RunSt) : RunResult :=
  liftE (df.col "department") (fun cells =>
    runList (fun v => execOp oracle (.mergeNode (deptId v) [])) (dedupFirst (cells.filterMap id))) st

def roleCols : List String := ["app_owner", "technical_lead", "business_owner"]

/-- The Python source accumulates names in a set; the iteration order of the
set is unspecified, so the embedding fixes first-insertion order, which yields
the same node set. -/
def peopleOf (df : DataFrame) : List Value :=
  dedupFirst (((roleCols.filter (fun c => c ∈ df.columns)).map
    (fun c => (df.rows.map (fun r => r.get c)).filterMap id)).flatten)

def create_person_nodes (oracle : Oracle) (df : DataFrame) (st : RunSt) : RunResult :=
  runList (fun v => execOp oracle (.mergeNode (personId v) [])) (peopleOf df) st

/-- One single-valued relationship rule: row[col] (KeyError when the column
is absent), a null cell is skipped, a non-null cell issues the edge query. -/
def guardedRel (oracle : Oracle) (r : Row) (col : String) (edgeOf : Value → Op)
    (st : RunSt) : RunResult :=
  liftE (r.item col) (fun cell st₁ =>
    match cell with
    | none => .ok st₁
    | some v => execOp oracle (edgeOf v) st₁) st

def personRels : List (String × String) :=
  [("app_owner", "OWNS"), ("technical_lead", "LEADS"), ("business_owner", "MANAGES")]

/-- One person relationship rule: guarded by column membership first, so a
missing role column is skipped, not an error. -/
def personRelStep (oracle : Oracle) (cols : List String) (a : NodeId) (r : Row)
    (pr : String × String) (st : RunSt) : RunResult :=
  if pr.1 ∈ cols then
    liftE (r.item pr.1) (fun cell st₁ =>
      match cell with
      | none => .ok st₁
      | some v => execOp oracle (.mmEdge (personId v) pr.2 a) st₁) st
  else .ok st

/-- One delimited-list rule: guarded by column membership, a null cell, and a
whitespace-only value; tokens are split on comma, stripped, empty tokens
skipped, and each remaining token issues the MATCH-MERGE-MERGE query. -/
def listRelStep (oracle : Oracle) (cols : List String) (a : NodeId) (r : Row)
    (col rel : String) (st : RunSt) : RunResult :=
  if col ∈ cols then
    liftE (r.item col) (fun cell st₁ =>
      match cell with
      | none => .ok st₁
      | some v =>
        if trimChars v.toStr.data = [] then .ok st₁
        else runList (fun t st₂ =>
               if t = "" then .ok st₂
               else execOp oracle (.depEdge a rel (extId t)) st₂)
             (depTokens v) st₁) st
  else .ok st

/-- One row of create_relationships: skip when app_id is null, else issue the
category, subcategory, vendor, department, person and list-column rules in
source order. -/
def relRow (oracle : Oracle) (cols : List String) (r : Row) (st : RunSt) : RunResult :=
  match r.get "app_id" with
  | none => .ok st
  | some v =>
    let a := appId v
    (guardedRel oracle r "category" (fun c => .mmEdge a "BELONGS_TO" (catId c)) st).step (fun st₁ =>
    (guardedRel oracle r "subcategory" (fun c => .mmEdge a "BELONGS_TO" (subcatId c)) st₁).step (fun st₂ =>
    (guardedRel oracle r "vendor_name" (fun c => .mmEdge a "SUPPLIED_BY" (vendorId c)) st₂).step (fun st₃ =>
    (guardedRel oracle r "department" (fun c => .mmEdge a "OWNED_BY" (deptId c)) st₃).step (fun st₄ =>
    (runList (personRelStep oracle cols a r) personRels st₄).step (fun st₅ =>
    (listRelStep oracle cols a r "depends_on_apps" "DEPENDS_ON" st₅).step
      (listRelStep oracle cols a r "integrates_with_apps" "INTEGRATES_WITH"))))))

def create_relationships (oracle : Oracle) (df : DataFrame) (st : RunSt) : RunResult :=
  runList (relRow oracle df.columns) df.rows st

/-- The five node-materialisation calls of migrate, in source order. -/
def nodePhases (oracle : Oracle) (df : DataFrame) (st : RunSt) : RunResult :=
  (create_application_nodes oracle df st).step (fun st₁ =>
  (create_category_nodes oracle df st₁).step (fun st₂ =>
  (create_vendor_nodes oracle df st₂).step (fun st₃ =>
  (create_department_nodes oracle df st₃).step
    (create_person_nodes oracle df))))

/-- The body of migrate after the load and the optional wipe. -/
def migrateRest (oracle : Oracle) (df : DataFrame) (st : RunSt) : RunResult :=
  (create_constraints_and_indexes oracle st).step (fun st₁ =>
  (nodePhases oracle df st₁).step
    (create_relationships oracle df))

/-- Neo4jMigrator.migrate: load, optional wipe, constraints, the five node
phases, then relationships. The load outcome is a parameter standing for
load_data_from_sqlite. -/
def migrate (oracle : Oracle) (clear_first : Bool) (load : Except String DataFrame)
    (g : GraphDB) : RunResult :=
  match load with
  | .error m => .err m ⟨g, []⟩
  | .ok df =>
    (if clear_first then clear_database oracle ⟨g, []⟩ else .ok ⟨g, []⟩).step
      (migrateRest oracle df)

def upsert_migrate (oracle : Oracle) (load : Except String DataFrame) (g : GraphDB) : RunResult :=
  migrate oracle false load g

/- ## Concrete inputs for evaluation -/

/-- The 27 columns read by create_application_nodes. -/
def appColumns : List String :=
  ["app_id", "app_name", "app_description", "app_version", "annual_cost", "license_type",
   "cost_center", "in_use", "user_count", "deployment_type", "environment", "platform",
   "programming_language", "database_type", "compliance_requirements",
   "security_classification", "data_sensitivity", "installation_date", "last_updated",
   "end_of_life_date", "renewal_date", "uptime_sla", "criticality", "tags", "notes",
   "created_at", "updated_at"]

/-- Columns of the concrete test dataframes: the application columns plus the
single-valued relationship columns and the dependency list column. -/
def extColumns : List String :=
  appColumns ++ ["category", "subcategory", "vendor_name", "vendor_contact_email",
                 "department", "depends_on_apps"]

/-- A row over extColumns, all cells null except the given overrides. -/
def mkRow (overrides : List (String × Cell)) : Row :=
  ⟨overrides.foldl (fun cs p => setProp cs p.1 p.2) (extColumns.map (fun c => (c, (none : Cell))))⟩

def mkDF (rows : List Row) : DataFrame := ⟨extColumns, rows⟩



def RunResult.stOf : RunResult → RunSt
  | .ok st => st
  | .err _ st => st

def RunResult.isOk : RunResult → Bool
  | .ok _ => true
  | .err _ _ => false

/- ## Classifying the write queries -/

def Op.isConstraintOp : Op → Bool
  | .constraint _ _ => true
  | _ => false

/-- Queries issued by create_application_nodes. -/
def Op.isAppOp : Op → Bool
  | .mergeNode i _ => i.label == "Application"
  | _ => false

/-- Queries issued by create_category_nodes. -/
def Op.isCatOp : Op → Bool
  | .mergeNode i _ => i.label == "Category" || i.label == "Subcategory"
  | .mmEdge a rel b => a.label == "Subcategory" && rel == "BELONGS_TO" && b.label == "Category"
  | _ => false

/-- Queries issued by create_vendor_nodes. -/
def Op.isVendorOp : Op → Bool
  | .mergeNode i _ => i.label == "Vendor"
  | _ => false

/-- Queries issued by create_department_nodes. -/
def Op.isDeptOp : Op → Bool
  | .mergeNode i _ => i.label == "Department"
  | _ => false

/-- Queries issued by create_person_nodes. -/
def Op.isPersonOp : Op → Bool
  | .mergeNode i _ => i.label == "Person"
  | _ => false

/-- Queries issued by the node-materialisation phases. -/
def Op.isNodePhaseOp (op : Op) : Bool :=
  op.isAppOp || op.isCatOp || op.isVendorOp || op.isDeptOp || op.isPersonOp

/-- Queries issued by create_relationships. -/
def Op.isRelOp : Op → Bool
  | .mmEdge a _ b =>
      (a.label == "Application" &&
        (b.label == "Category" || b.label == "Subcategory" ||
         b.label == "Vendor" || b.label == "Department")) ||
      (a.label == "Person" && b.label == "Application")
  | .depEdge a _ b => a.label == "Application" && b.label == "ExternalApp"
  | _ => false

/-- An edge-creating query whose two endpoints carry distinct labels. -/
def Op.edgeSafe : Op → Bool
  | .mmEdge a _ b => !(a.label == b.label)
  | .depEdge a _ b => !(a.label == b.label)
  | _ => true

/- ## Concrete dataframes -/

def rowFoo : Row :=
  mkRow [("app_id", some (.int 1)), ("app_name", some (.str "Foo")),
         ("category", some (.str "Dev")), ("vendor_name", some (.str "Acme")),
         ("depends_on_apps", some (.str "Bar,Baz"))]

def dfFoo : DataFrame := mkDF [rowFoo]

/-- A record with a null primary identifier but non-null category data. -/
def rowNull : Row :=
  mkRow [("category", some (.str "X")), ("subcategory", some (.str "Y"))]

def dfNull : DataFrame := mkDF [rowNull]

/-- A record whose dependency list contains its own name. -/
def rowSelf : Row :=
  mkRow [("app_id", some (.int 1)), ("app_name", some (.str "Foo")),
         ("depends_on_apps", some (.str "Foo"))]

def dfSelf : DataFrame := mkDF [rowSelf]

/-- A single record with app_id 1 and the given dependency-list value. -/
def rowDep (s : String) : Row :=
  mkRow [("app_id", some (.int 1)), ("app_name", some (.str "Foo")),
         ("depends_on_apps", some (.str s))]

def dfDep (s : String) : DataFrame := mkDF [rowDep s]

/-- A dataframe whose column set lacks the category column (and the other
optional relationship columns). -/
def dfNoCat : DataFrame := ⟨appColumns, [mkRow []]⟩

/- ## Predicates and invariants used by the verification -/

/-- f only appends queries satisfying P to the trace, whether it succeeds
or fails. -/
def EmitsOnly (P : Op → Bool) (f : RunSt → RunResult) : Prop :=
  ∀ st, ∃ ext, ((f st).stOf).trace = st.trace ++ ext ∧ ∀ op ∈ ext, P op = true

/-- P is preserved by executing any single query. -/
def OpClosed (P : RunSt → Prop) : Prop :=
  ∀ op st, P st → P ⟨applyOp op st.g, st.trace ++ [op]⟩

/-- f preserves P on the reached state, whether it succeeds or fails. -/
def Keeps (P : RunSt → Prop) (f : RunSt → RunResult) : Prop :=
  ∀ st, P st → P ((f st).stOf)

/-- Key uniqueness of the store: node keys are pairwise distinct and so are
edges (endpoint pair plus relationship kind). -/
def GoodDB (g : GraphDB) : Prop :=
  (g.nodes.map GNode.id).Nodup ∧ g.edges.Nodup

/-- Two run outcomes agree on success, error message, and reached store
(the trace may differ). -/
def gAgree : RunResult → RunResult → Prop
  | .ok st, .ok st' => st.g = st'.g
  | .err m st, .err m' st' => m = m' ∧ st.g = st'.g
  | _, _ => False

def GRel (f f' : RunSt → RunResult) : Prop :=
  ∀ st st', st.g = st'.g → gAgree (f st) (f' st')

/-- An oracle that fails only constraint declarations. -/
def OnlyConstraintFailures (oracle : Oracle) : Prop :=
  ∀ op, oracle op = true → op.isConstraintOp = true

def nonEmptyTokens (s : String) : List String :=
  (depTokens (.str s)).filter (fun t => !(t == ""))

/-- Fold of the per-token upserts: skip empty and already-seen tokens,
append fresh ones. -/
def addTok (seen : List String) : List String → List String
  | [] => seen
  | t :: ts => if t = "" ∨ t ∈ seen then addTok seen ts else addTok (seen ++ [t]) ts

def Op.isMidOp (op : Op) : Bool :=
  op.isCatOp || op.isVendorOp || op.isDeptOp || op.isPersonOp

/-- Stores reachable by the shared-entity phases alone: no Application or
ExternalApp node, and only Subcategory-BELONGS_TO-Category edges. -/
def MidSafe (g : GraphDB) : Prop :=
  (∀ nd ∈ g.nodes, nd.id.label ≠ "Application" ∧ nd.id.label ≠ "ExternalApp")
    ∧ (∀ e ∈ g.edges, e.src.label = "Subcategory" ∧ e.rel = "BELONGS_TO"
        ∧ e.dst.label = "Category")

def NoSelfLoop (g : GraphDB) : Prop := ∀ e ∈ g.edges, e.src.label ≠ e.dst.label

def isExternalConstraint (op : Op) : Bool :=
  match op with
  | .constraint l _ => l == "ExternalApp" || l == "ExternalReference"
  | _ => false

/-- Oracle failing exactly one constraint declaration. -/
def oracleOneConstraint : Oracle := fun op => op == Op.constraint "Category" "name"

/-- Oracle failing every Application node upsert. -/
def oracleAppWrites : Oracle := fun op => op.isAppOp

/- ## Combinator lemmas -/

@[simp] theorem step_ok (st : RunSt) (f : RunSt → RunResult) :
    (RunResult.ok st).step f = f st := rfl

@[simp] theorem step_err (m : String) (st : RunSt) (f : RunSt → RunResult) :
    (RunResult.err m st).step f = .err m st := rfl

@[simp] theorem stOf_ok (st : RunSt) : (RunResult.ok st).stOf = st := rfl

@[simp] theorem stOf_err (m : String) (st : RunSt) : (RunResult.err m st).stOf = st := rfl

@[simp] theorem runList_nil (f : α → RunSt → RunResult) (st : RunSt) :
    runList f [] st = .ok st := rfl

theorem foldl_step_err (f : α → RunSt → RunResult) (l : List α) (m : String) (st : RunSt) :
    l.foldl (fun (r : RunResult) a => r.step (f a)) (.err m st) = .err m st := by
  induction l with
  | nil => rfl
  | cons a l ih => simpa using ih

theorem runList_cons (f : α → RunSt → RunResult) (a : α) (l : List α) (st : RunSt) :
    runList f (a :: l) st = (f a st).step (runList f l) := by
  show l.foldl (fun r a => r.step (f a)) ((RunResult.ok st).step (f a)) = _
  cases h : f a st with
  | ok st₁ => simp [runList, h]
  | err m st₁ => simp [h, foldl_step_err]

theorem runList_congr {f f' : α → RunSt → RunResult} (l : List α)
    (h : ∀ a st, f a st = f' a st) (st : RunSt) :
    runList f l st = runList f' l st := by
  induction l generalizing st with
  | nil => rfl
  | cons a l ih =>
      rw [runList_cons, runList_cons, h]
      cases f' a st with
      | ok st₁ => simpa using ih st₁
      | err m st₁ => simp

theorem runList_skip {f : α → RunSt → RunResult} (l : List α)
    (h : ∀ a ∈ l, ∀ st, f a st = .ok st) (st : RunSt) :
    runList f l st = .ok st := by
  induction l generalizing st with
  | nil => rfl
  | cons a l ih =>
      rw [runList_cons, h a (by simp)]
      exact ih (fun a ha => h a (by simp [ha])) st

/- ## Trace shape: a run step only appends queries of a given kind -/

theorem emitsOnly_pure (P : Op → Bool) : EmitsOnly P (fun st => .ok st) :=
  fun st => ⟨[], by simp⟩

theorem emitsOnly_execOp (P : Op → Bool) (oracle : Oracle) (op : Op) (h : P op = true) :
    EmitsOnly P (execOp oracle op) := by
  intro st
  by_cases ho : oracle op = true
  · exact ⟨[], by simp [execOp, ho]⟩
  · exact ⟨[op], by simp [execOp, ho, h]⟩

theorem emitsOnly_step (P : Op → Bool) {f g : RunSt → RunResult}
    (hf : EmitsOnly P f) (hg : EmitsOnly P g) :
    EmitsOnly P (fun st => (f st).step g) := by
  intro st
  obtain ⟨ext₁, h₁, hp₁⟩ := hf st
  cases hr : f st with
  | ok st₁ =>
      obtain ⟨ext₂, h₂, hp₂⟩ := hg st₁
      refine ⟨ext₁ ++ ext₂, ?_, ?_⟩
      · rw [hr] at h₁
        simp only [hr, step_ok, h₂, stOf_ok] at *
        simp [h₁, h₂]
      · intro op hop
        rcases List.mem_append.mp hop with h | h
        · exact hp₁ op h
        · exact hp₂ op h
  | err m st₁ =>
      rw [hr] at h₁
      exact ⟨ext₁, by simp [hr, h₁] at *; simp [h₁], hp₁⟩

theorem emitsOnly_runList (P : Op → Bool) {f : α → RunSt → RunResult}
    (hf : ∀ a, EmitsOnly P (f a)) (l : List α) :
    EmitsOnly P (runList f l) := by
  induction l with
  | nil => exact fun st => ⟨[], by simp⟩
  | cons a l ih =>
      intro st
      have h := emitsOnly_step P (hf a) ih st
      simpa [runList_cons] using h

theorem emitsOnly_liftE (P : Op → Bool) {e : Except String β} {f : β → RunSt → RunResult}
    (hf : ∀ b, EmitsOnly P (f b)) :
    EmitsOnly P (liftE e f) := by
  intro st
  cases e with
  | error m => exact ⟨[], by simp [liftE]⟩
  | ok b => exact hf b st

theorem emitsOnly_mono {P Q : Op → Bool} (h : ∀ op, P op = true → Q op = true)
    {f : RunSt → RunResult} (hf : EmitsOnly P f) : EmitsOnly Q f := by
  intro st
  obtain ⟨ext, he, hp⟩ := hf st
  exact ⟨ext, he, fun op hop => h op (hp op hop)⟩

/- ## State invariants closed under query application -/

theorem keeps_pure (P : RunSt → Prop) : Keeps P (fun st => .ok st) := fun _ h => h

theorem keeps_execOp {P : RunSt → Prop} (hP : OpClosed P) (oracle : Oracle) (op : Op) :
    Keeps P (execOp oracle op) := by
  intro st h
  by_cases ho : oracle op = true
  · simpa [execOp, ho] using h
  · simpa [execOp, ho] using hP op st h

theorem keeps_step {P : RunSt → Prop} {f g : RunSt → RunResult}
    (hf : Keeps P f) (hg : Keeps P g) : Keeps P (fun st => (f st).step g) := by
  intro st h
  have h₁ := hf st h
  cases hr : f st with
  | ok st₁ => rw [hr] at h₁; simpa [hr] using hg st₁ h₁
  | err m st₁ => rw [hr] at h₁; simpa [hr] using h₁

theorem keeps_runList {P : RunSt → Prop} {f : α → RunSt → RunResult}
    (hf : ∀ a, Keeps P (f a)) (l : List α) : Keeps P (runList f l) := by
  induction l with
  | nil => exact fun _ h => h
  | cons a l ih =>
      intro st h
      have := keeps_step (hf a) ih st h
      simpa [runList_cons] using this

theorem keeps_liftE {P : RunSt → Prop} {e : Except String β} {f : β → RunSt → RunResult}
    (hf : ∀ b, Keeps P (f b)) : Keeps P (liftE e f) := by
  intro st h
  cases e with
  | error m => simpa [liftE] using h
  | ok b => exact hf b st h

/- ## Store-level lemmas -/

theorem applyOps_append (ops₁ ops₂ : List Op) (g : GraphDB) :
    applyOps (ops₁ ++ ops₂) g = applyOps ops₂ (applyOps ops₁ g) := by
  simp [applyOps, List.foldl_append]



theorem goodDB_empty : GoodDB emptyDB := by
  constructor <;> simp [emptyDB]

theorem goodDB_mergeNode {g : GraphDB} (i : NodeId) (props : List (String × Cell))
    (h : GoodDB g) : GoodDB (g.mergeNode i props) := by
  unfold GraphDB.mergeNode
  by_cases he : g.nodeExists i = true
  · simp only [he, if_true]
    refine ⟨?_, h.2⟩
    have hm : (g.nodes.map (fun n =>
        if n.id = i then (⟨n.id, setProps n.props props⟩ : GNode) else n)).map GNode.id
        = g.nodes.map GNode.id := by
      rw [List.map_map]
      apply List.map_congr_left
      intro n _
      by_cases hn : n.id = i <;> simp [hn]
    rw [hm]; exact h.1
  · simp only [he, if_false, Bool.false_eq_true]
    refine ⟨?_, h.2⟩
    rw [List.map_append]
    rw [List.nodup_append]
    refine ⟨h.1, by simp, ?_⟩
    intro a ha hb
    simp only [List.map_cons, List.map_nil, List.mem_singleton] at hb
    rw [hb] at ha
    have hall : ∀ n ∈ g.nodes, ¬(n.id = i) := by
      intro n hn hi
      exact he (by simp [GraphDB.nodeExists, List.any_eq_true]; exact ⟨n, hn, hi⟩)
    obtain ⟨n, hn, hni⟩ := List.mem_map.mp ha
    exact hall n hn hni

theorem goodDB_mergeEdge {g : GraphDB} (e : Edge) (h : GoodDB g) :
    GoodDB (g.mergeEdge e) := by
  unfold GraphDB.mergeEdge
  by_cases he : e ∈ g.edges
  · simp [he, h]
  · simp only [he, if_false]
    refine ⟨h.1, ?_⟩
    rw [List.nodup_append]
    exact ⟨h.2, by simp, by intro a ha hb; simp at hb; subst hb; exact he ha⟩

theorem goodDB_applyOp (op : Op) {g : GraphDB} (h : GoodDB g) : GoodDB (applyOp op g) := by
  cases op with
  | clear => exact goodDB_empty
  | constraint l a => exact h
  | mergeNode i props => exact goodDB_mergeNode i props h
  | mmEdge a rel b =>
      simp only [applyOp]
      by_cases hc : (g.nodeExists a && g.nodeExists b) = true
      · simp only [hc, if_true]; exact goodDB_mergeEdge _ h
      · simp only [hc, if_false]; exact h
  | depEdge a rel b =>
      simp only [applyOp]
      by_cases hc : g.nodeExists a = true
      · simp only [hc, if_true]; exact goodDB_mergeEdge _ (goodDB_mergeNode b [] h)
      · simp only [hc, if_false, Bool.false_eq_true]; exact h

theorem opClosed_goodDB : OpClosed (fun st => GoodDB st.g) :=
  fun op st h => goodDB_applyOp op h

/-- The reached store is exactly the effect of the recorded queries on the
initial store. -/
theorem opClosed_replay (g₀ : GraphDB) :
    OpClosed (fun st => st.g = applyOps st.trace g₀) := by
  intro op st h
  show applyOp op st.g = applyOps (st.trace ++ [op]) g₀
  rw [applyOps_append, ← h]
  rfl

/- ## The constraint phase -/

theorem foldl_runCatch_char (oracle : Oracle) (l : List Op)
    (hl : ∀ op ∈ l, ∀ g, applyOp op g = g) :
    ∀ st : RunSt, l.foldl (runCatch oracle) st
      = ⟨st.g, st.trace ++ l.filter (fun op => !(oracle op))⟩ := by
  induction l with
  | nil => intro st; simp
  | cons a l ih =>
      intro st
      have ha : ∀ g, applyOp a g = g := hl a (by simp)
      have hl' : ∀ op ∈ l, ∀ g, applyOp op g = g := fun op hop => hl op (by simp [hop])
      show l.foldl (runCatch oracle) (runCatch oracle st a) = _
      by_cases ho : oracle a = true
      · rw [show runCatch oracle st a = st from by simp [runCatch, ho]]
        rw [ih hl' st]
        simp [List.filter_cons, ho]
      · rw [show runCatch oracle st a = ⟨st.g, st.trace ++ [a]⟩ from by
          simp [runCatch, ho, ha]]
        rw [ih hl' ⟨st.g, st.trace ++ [a]⟩]
        simp [List.filter_cons, ho]

theorem constraintOps_applyOp_id : ∀ op ∈ constraintOps, ∀ g, applyOp op g = g := by
  intro op hop g
  simp only [constraintOps, List.mem_cons, List.mem_singleton, List.not_mem_nil, or_false] at hop
  rcases hop with rfl | rfl | rfl | rfl | rfl | rfl | rfl <;> rfl

/-- The constraint phase never aborts: every declaration failure is swallowed,
the store is untouched, and exactly the non-failing declarations execute. -/
theorem create_constraints_char (oracle : Oracle) (st : RunSt) :
    create_constraints_and_indexes oracle st
      = .ok ⟨st.g, st.trace ++ constraintOps.filter (fun op => !(oracle op))⟩ := by
  unfold create_constraints_and_indexes
  rw [foldl_runCatch_char oracle constraintOps constraintOps_applyOp_id st]

theorem emitsOnly_constraints (oracle : Oracle) :
    EmitsOnly Op.isConstraintOp (create_constraints_and_indexes oracle) := by
  intro st
  rw [create_constraints_char]
  refine ⟨constraintOps.filter (fun op => !(oracle op)), by simp, ?_⟩
  intro op hop
  have hmem := List.mem_filter.mp hop
  have := hmem.1
  simp only [constraintOps, List.mem_cons, List.mem_singleton, List.not_mem_nil, or_false] at this
  rcases this with rfl | rfl | rfl | rfl | rfl | rfl | rfl <;> rfl

/- ## Invariant preservation through each phase -/

theorem keeps_appRow {P : RunSt → Prop} (hP : OpClosed P) (oracle : Oracle) (r : Row) :
    Keeps P (appRow oracle r) := by
  intro st h
  unfold appRow
  cases hv : r.get "app_id" with
  | none => simpa using h
  | some v => exact keeps_liftE (fun props => keeps_execOp hP oracle _) st h

theorem keeps_app_phase {P : RunSt → Prop} (hP : OpClosed P) (oracle : Oracle) (df : DataFrame) :
    Keeps P (create_application_nodes oracle df) :=
  keeps_runList (fun r => keeps_appRow hP oracle r) df.rows

theorem keeps_subcatStep {P : RunSt → Prop} (hP : OpClosed P) (oracle : Oracle) (p : Cell × Cell) :
    Keeps P (subcatStep oracle p) := by
  intro st h
  unfold subcatStep
  cases p.2 with
  | none => simpa using h
  | some sub =>
      refine keeps_step (keeps_execOp hP oracle _) ?_ st h
      intro st₁ h₁
      cases p.1 with
      | none => simpa using h₁
      | some cat => exact keeps_execOp hP oracle _ st₁ h₁

theorem keeps_cat_phase {P : RunSt → Prop} (hP : OpClosed P) (oracle : Oracle) (df : DataFrame) :
    Keeps P (create_category_nodes oracle df) := by
  intro st h
  unfold create_category_nodes
  refine keeps_liftE (fun pairs => ?_) st h
  refine keeps_liftE (fun catCells => ?_)
  exact keeps_step (keeps_runList (fun v => keeps_execOp hP oracle _) _)
    (keeps_runList (fun p => keeps_subcatStep hP oracle p) _)

theorem keeps_vendorStep {P : RunSt → Prop} (hP : OpClosed P) (oracle : Oracle) (p : Cell × Cell) :
    Keeps P (vendorStep oracle p) := by
  intro st h
  unfold vendorStep
  cases p.1 with
  | none => simpa using h
  | some nm => exact keeps_execOp hP oracle _ st h

theorem keeps_vendor_phase {P : RunSt → Prop} (hP : OpClosed P) (oracle : Oracle) (df : DataFrame) :
    Keeps P (create_vendor_nodes oracle df) := by
  intro st h
  unfold create_vendor_nodes
  exact keeps_liftE (fun pairs => keeps_runList (fun p => keeps_vendorStep hP oracle p) _) st h

theorem keeps_dept_phase {P : RunSt → Prop} (hP : OpClosed P) (oracle : Oracle) (df : DataFrame) :
    Keeps P (create_department_nodes oracle df) := by
  intro st h
  unfold create_department_nodes
  exact keeps_liftE (fun cells => keeps_runList (fun v => keeps_execOp hP oracle _) _) st h

theorem keeps_person_phase {P : RunSt → Prop} (hP : OpClosed P) (oracle : Oracle) (df : DataFrame) :
    Keeps P (create_person_nodes oracle df) :=
  keeps_runList (fun v => keeps_execOp hP oracle _) (peopleOf df)

theorem keeps_guardedRel {P : RunSt → Prop} (hP : OpClosed P) (oracle : Oracle) (r : Row)
    (col : String) (edgeOf : Value → Op) : Keeps P (guardedRel oracle r col edgeOf) := by
  intro st h
  unfold guardedRel
  refine keeps_liftE (fun cell => ?_) st h
  intro st₁ h₁
  cases cell with
  | none => simpa using h₁
  | some v => exact keeps_execOp hP oracle _ st₁ h₁

theorem keeps_personRelStep {P : RunSt → Prop} (hP : OpClosed P) (oracle : Oracle)
    (cols : List String) (a : NodeId) (r : Row) (pr : String × String) :
    Keeps P (personRelStep oracle cols a r pr) := by
  intro st h
  unfold personRelStep
  by_cases hc : pr.1 ∈ cols
  · simp only [hc, if_true]
    refine keeps_liftE (fun cell => ?_) st h
    intro st₁ h₁
    cases cell with
    | none => simpa using h₁
    | some v => exact keeps_execOp hP oracle _ st₁ h₁
  · simpa [hc] using h

theorem keeps_listRelStep {P : RunSt → Prop} (hP : OpClosed P) (oracle : Oracle)
    (cols : List String) (a : NodeId) (r : Row) (col rel : String) :
    Keeps P (listRelStep oracle cols a r col rel) := by
  intro st h
  unfold listRelStep
  by_cases hc : col ∈ cols
  · simp only [hc, if_true]
    refine keeps_liftE (fun cell => ?_) st h
    intro st₁ h₁
    cases cell with
    | none => simpa using h₁
    | some v =>
        by_cases ht : trimChars v.toStr.data = []
        · simpa [ht] using h₁
        · simp only [ht, if_false]
          refine keeps_runList (fun t => ?_) _ st₁ h₁
          intro st₂ h₂
          by_cases he : t = ""
          · simpa [he] using h₂
          · simpa [he] using keeps_execOp hP oracle _ st₂ h₂
  · simpa [hc] using h

theorem keeps_relRow {P : RunSt → Prop} (hP : OpClosed P) (oracle : Oracle)
    (cols : List String) (r : Row) : Keeps P (relRow oracle cols r) := by
  intro st h
  unfold relRow
  cases hv : r.get "app_id" with
  | none => simpa using h
  | some v =>
      refine keeps_step (keeps_guardedRel hP oracle r _ _) (fun st₁ h₁ => ?_) st h
      refine keeps_step (keeps_guardedRel hP oracle r _ _) (fun st₂ h₂ => ?_) st₁ h₁
      refine keeps_step (keeps_guardedRel hP oracle r _ _) (fun st₃ h₃ => ?_) st₂ h₂
      refine keeps_step (keeps_guardedRel hP oracle r _ _) (fun st₄ h₄ => ?_) st₃ h₃
      refine keeps_step (keeps_runList (fun pr => keeps_personRelStep hP oracle cols _ r pr) _)
        (fun st₅ h₅ => ?_) st₄ h₄
      exact keeps_step (keeps_listRelStep hP oracle cols _ r _ _)
        (keeps_listRelStep hP oracle cols _ r _ _) st₅ h₅

theorem keeps_rel_phase {P : RunSt → Prop} (hP : OpClosed P) (oracle : Oracle) (df : DataFrame) :
    Keeps P (create_relationships oracle df) :=
  keeps_runList (fun r => keeps_relRow hP oracle df.columns r) df.rows

theorem keeps_foldl_runCatch {P : RunSt → Prop} (hP : OpClosed P) (oracle : Oracle)
    (l : List Op) : ∀ st, P st → P (l.foldl (runCatch oracle) st) := by
  induction l with
  | nil => exact fun _ h => h
  | cons a l ih =>
      intro st h
      apply ih
      unfold runCatch
      by_cases ho : oracle a = true
      · simpa [ho] using h
      · simpa [ho] using hP a st h

theorem keeps_constraints {P : RunSt → Prop} (hP : OpClosed P) (oracle : Oracle) :
    Keeps P (create_constraints_and_indexes oracle) := by
  intro st h
  unfold create_constraints_and_indexes
  exact keeps_foldl_runCatch hP oracle constraintOps st h

theorem keeps_nodePhases {P : RunSt → Prop} (hP : OpClosed P) (oracle : Oracle) (df : DataFrame) :
    Keeps P (nodePhases oracle df) := by
  intro st h
  unfold nodePhases
  refine keeps_step (keeps_app_phase hP oracle df) (fun st₁ h₁ => ?_) st h
  refine keeps_step (keeps_cat_phase hP oracle df) (fun st₂ h₂ => ?_) st₁ h₁
  refine keeps_step (keeps_vendor_phase hP oracle df) (fun st₃ h₃ => ?_) st₂ h₂
  exact keeps_step (keeps_dept_phase hP oracle df) (keeps_person_phase hP oracle df) st₃ h₃

theorem keeps_migrateRest {P : RunSt → Prop} (hP : OpClosed P) (oracle : Oracle) (df : DataFrame) :
    Keeps P (migrateRest oracle df) := by
  intro st h
  unfold migrateRest
  refine keeps_step (keeps_constraints hP oracle) (fun st₁ h₁ => ?_) st h
  exact keeps_step (keeps_nodePhases hP oracle df) (keeps_rel_phase hP oracle df) st₁ h₁

/-- Whatever state a run of migrate reaches, successful or not, satisfies any
invariant closed under query execution that holds initially. -/
theorem migrate_keeps {P : RunSt → Prop} (hP : OpClosed P) (oracle : Oracle) (cf : Bool)
    (load : Except String DataFrame) (g : GraphDB) (h : P ⟨g, []⟩) :
    P ((migrate oracle cf load g).stOf) := by
  cases load with
  | error m => simpa [migrate] using h
  | ok df =>
      show P (((if cf then clear_database oracle ⟨g, []⟩ else .ok ⟨g, []⟩).step
        (migrateRest oracle df)).stOf)
      refine @keeps_step P (fun st => if cf then clear_database oracle st else .ok st)
        (migrateRest oracle df) ?_ (keeps_migrateRest hP oracle df) ⟨g, []⟩ h
      intro st hst
      by_cases hc : cf = true
      · simpa [hc, clear_database] using keeps_execOp hP oracle .clear st hst
      · simpa [hc] using hst

/- ## Which queries each phase emits -/

theorem emits_appRow (oracle : Oracle) (r : Row) :
    EmitsOnly Op.isAppOp (appRow oracle r) := by
  unfold appRow
  cases hv : r.get "app_id" with
  | none => exact emitsOnly_pure _
  | some v => exact emitsOnly_liftE _ (fun props => emitsOnly_execOp _ oracle _ rfl)

theorem emits_app_phase (oracle : Oracle) (df : DataFrame) :
    EmitsOnly Op.isAppOp (create_application_nodes oracle df) :=
  emitsOnly_runList _ (fun r => emits_appRow oracle r) df.rows

theorem emits_subcatStep (oracle : Oracle) (p : Cell × Cell) :
    EmitsOnly Op.isCatOp (subcatStep oracle p) := by
  unfold subcatStep
  cases p.2 with
  | none => exact emitsOnly_pure _
  | some sub =>
      refine emitsOnly_step _ (emitsOnly_execOp _ oracle _ rfl) ?_
      cases p.1 with
      | none => exact emitsOnly_pure _
      | some cat => exact emitsOnly_execOp _ oracle _ rfl

theorem emits_cat_phase (oracle : Oracle) (df : DataFrame) :
    EmitsOnly Op.isCatOp (create_category_nodes oracle df) := by
  unfold create_category_nodes
  refine emitsOnly_liftE _ (fun pairs => ?_)
  refine emitsOnly_liftE _ (fun catCells => ?_)
  exact emitsOnly_step _
    (emitsOnly_runList _ (fun v => emitsOnly_execOp _ oracle _ rfl) _)
    (emitsOnly_runList _ (fun p => emits_subcatStep oracle p) _)

theorem emits_vendor_phase (oracle : Oracle) (df : DataFrame) :
    EmitsOnly Op.isVendorOp (create_vendor_nodes oracle df) := by
  unfold create_vendor_nodes
  refine emitsOnly_liftE _ (fun pairs => ?_)
  refine emitsOnly_runList _ (fun p => ?_) _
  unfold vendorStep
  cases p.1 with
  | none => exact emitsOnly_pure _
  | some nm => exact emitsOnly_execOp _ oracle _ rfl

theorem emits_dept_phase (oracle : Oracle) (df : DataFrame) :
    EmitsOnly Op.isDeptOp (create_department_nodes oracle df) := by
  unfold create_department_nodes
  exact emitsOnly_liftE _
    (fun cells => emitsOnly_runList _ (fun v => emitsOnly_execOp _ oracle _ rfl) _)

theorem emits_person_phase (oracle : Oracle) (df : DataFrame) :
    EmitsOnly Op.isPersonOp (create_person_nodes oracle df) :=
  emitsOnly_runList _ (fun v => emitsOnly_execOp _ oracle _ rfl) (peopleOf df)

theorem emits_guardedRel (P : Op → Bool) (oracle : Oracle) (r : Row) (col : String)
    (edgeOf : Value → Op) (h : ∀ v, P (edgeOf v) = true) :
    EmitsOnly P (guardedRel oracle r col edgeOf) := by
  unfold guardedRel
  refine emitsOnly_liftE _ (fun cell => ?_)
  cases cell with
  | none => exact emitsOnly_pure _
  | some v => exact emitsOnly_execOp _ oracle _ (h v)

theorem emits_personRelStep (oracle : Oracle) (cols : List String) (v : Value) (r : Row)
    (pr : String × String) :
    EmitsOnly Op.isRelOp (personRelStep oracle cols (appId v) r pr) := by
  unfold personRelStep
  by_cases hc : pr.1 ∈ cols
  · simp only [hc, if_true]
    refine emitsOnly_liftE _ (fun cell => ?_)
    cases cell with
    | none => exact emitsOnly_pure _
    | some w => exact emitsOnly_execOp _ oracle _ rfl
  · simp only [hc, if_false]
    exact emitsOnly_pure _

theorem emits_listRelStep (oracle : Oracle) (cols : List String) (v : Value) (r : Row)
    (col rel : String) :
    EmitsOnly Op.isRelOp (listRelStep oracle cols (appId v) r col rel) := by
  unfold listRelStep
  by_cases hc : col ∈ cols
  · simp only [hc, if_true]
    refine emitsOnly_liftE _ (fun cell => ?_)
    cases cell with
    | none => exact emitsOnly_pure _
    | some w =>
        by_cases ht : trimChars w.toStr.data = []
        · simp only [ht, if_true]
          exact emitsOnly_pure _
        · simp only [ht, if_false]
          refine emitsOnly_runList _ (fun t => ?_) _
          by_cases he : t = ""
          · simp only [he, if_true]
            exact emitsOnly_pure _
          · simp only [he, if_false]
            exact emitsOnly_execOp _ oracle _ rfl
  · simp only [hc, if_false]
    exact emitsOnly_pure _

theorem emits_relRow (oracle : Oracle) (cols : List String) (r : Row) :
    EmitsOnly Op.isRelOp (relRow oracle cols r) := by
  unfold relRow
  cases hv : r.get "app_id" with
  | none => exact emitsOnly_pure _
  | some v =>
      refine emitsOnly_step _ (emits_guardedRel _ oracle r _ _ (fun c => rfl)) ?_
      refine emitsOnly_step _ (emits_guardedRel _ oracle r _ _ (fun c => rfl)) ?_
      refine emitsOnly_step _ (emits_guardedRel _ oracle r _ _ (fun c => rfl)) ?_
      refine emitsOnly_step _ (emits_guardedRel _ oracle r _ _ (fun c => rfl)) ?_
      refine emitsOnly_step _
        (emitsOnly_runList _ (fun pr => emits_personRelStep oracle cols v r pr) _) ?_
      exact emitsOnly_step _ (emits_listRelStep oracle cols v r _ _)
        (emits_listRelStep oracle cols v r _ _)

theorem emits_rel_phase (oracle : Oracle) (df : DataFrame) :
    EmitsOnly Op.isRelOp (create_relationships oracle df) :=
  emitsOnly_runList _ (fun r => emits_relRow oracle df.columns r) df.rows

theorem emits_nodePhases (oracle : Oracle) (df : DataFrame) :
    EmitsOnly Op.isNodePhaseOp (nodePhases oracle df) := by
  unfold nodePhases
  refine emitsOnly_step _ (emitsOnly_mono ?_ (emits_app_phase oracle df)) ?_
  · intro op h; simp [Op.isNodePhaseOp, h]
  refine emitsOnly_step _ (emitsOnly_mono ?_ (emits_cat_phase oracle df)) ?_
  · intro op h; simp [Op.isNodePhaseOp, h]
  refine emitsOnly_step _ (emitsOnly_mono ?_ (emits_vendor_phase oracle df)) ?_
  · intro op h; simp [Op.isNodePhaseOp, h]
  refine emitsOnly_step _ (emitsOnly_mono ?_ (emits_dept_phase oracle df))
    (emitsOnly_mono ?_ (emits_person_phase oracle df))
  · intro op h; simp [Op.isNodePhaseOp, h]
  · intro op h; simp [Op.isNodePhaseOp, h]

/- ## Comparing runs under two failure oracles -/

theorem grel_pure : GRel (fun st => .ok st) (fun st => .ok st) := fun _ _ h => h

theorem grel_execOp {oracle oracle' : Oracle} (op : Op) (h : oracle op = oracle' op) :
    GRel (execOp oracle op) (execOp oracle' op) := by
  intro st st' hg
  unfold execOp
  rw [h]
  by_cases ho : oracle' op = true
  · simpa [ho, gAgree] using hg
  · simp only [ho, if_false, Bool.false_eq_true]
    show applyOp op st.g = applyOp op st'.g
    rw [hg]

theorem grel_step {f f' g g' : RunSt → RunResult} (hf : GRel f f') (hg : GRel g g') :
    GRel (fun st => (f st).step g) (fun st => (f' st).step g') := by
  intro st st' h
  have hff := hf st st' h
  cases hr : f st with
  | ok st₁ =>
      cases hr' : f' st' with
      | ok st₁' =>
          rw [hr, hr'] at hff
          simpa [hr, hr'] using hg st₁ st₁' hff
      | err m' st₁' => rw [hr, hr'] at hff; exact absurd hff (by simp [gAgree])
  | err m st₁ =>
      cases hr' : f' st' with
      | ok st₁' => rw [hr, hr'] at hff; exact absurd hff (by simp [gAgree])
      | err m' st₁' =>
          rw [hr, hr'] at hff
          simpa [hr, hr', gAgree] using hff

theorem grel_runList {f f' : α → RunSt → RunResult} (hf : ∀ a, GRel (f a) (f' a))
    (l : List α) : GRel (runList f l) (runList f' l) := by
  induction l with
  | nil => exact fun st st' h => h
  | cons a l ih =>
      intro st st' h
      have := grel_step (hf a) ih st st' h
      simpa [runList_cons] using this

theorem grel_liftE {e : Except String β} {f f' : β → RunSt → RunResult}
    (hf : ∀ b, GRel (f b) (f' b)) : GRel (liftE e f) (liftE e f') := by
  intro st st' h
  cases e with
  | error m => exact ⟨rfl, h⟩
  | ok b => exact hf b st st' h



theorem ocf_nonconstraint {oracle : Oracle} (h : OnlyConstraintFailures oracle)
    {op : Op} (hop : op.isConstraintOp = false) : oracle op = noFail op := by
  show oracle op = false
  by_contra hc
  have := h op (by revert hc; cases ho : oracle op <;> simp)
  rw [hop] at this
  exact absurd this (by simp)

theorem grel_constraints {oracle : Oracle} :
    GRel (create_constraints_and_indexes oracle) (create_constraints_and_indexes noFail) := by
  intro st st' h
  rw [create_constraints_char, create_constraints_char]
  exact h

theorem grel_appRow {oracle : Oracle} (h : OnlyConstraintFailures oracle) (r : Row) :
    GRel (appRow oracle r) (appRow noFail r) := by
  unfold appRow
  cases hv : r.get "app_id" with
  | none => exact grel_pure
  | some v => exact grel_liftE (fun props => grel_execOp _ (ocf_nonconstraint h rfl))

theorem grel_subcatStep {oracle : Oracle} (h : OnlyConstraintFailures oracle) (p : Cell × Cell) :
    GRel (subcatStep oracle p) (subcatStep noFail p) := by
  unfold subcatStep
  cases p.2 with
  | none => exact grel_pure
  | some sub =>
      refine grel_step (grel_execOp _ (ocf_nonconstraint h rfl)) ?_
      cases p.1 with
      | none => exact grel_pure
      | some cat => exact grel_execOp _ (ocf_nonconstraint h rfl)

theorem grel_vendorStep {oracle : Oracle} (h : OnlyConstraintFailures oracle) (p : Cell × Cell) :
    GRel (vendorStep oracle p) (vendorStep noFail p) := by
  unfold vendorStep
  cases p.1 with
  | none => exact grel_pure
  | some nm => exact grel_execOp _ (ocf_nonconstraint h rfl)

theorem grel_guardedRel {oracle : Oracle} (h : OnlyConstraintFailures oracle) (r : Row)
    (col : String) (edgeOf : Value → Op) (hE : ∀ v, (edgeOf v).isConstraintOp = false) :
    GRel (guardedRel oracle r col edgeOf) (guardedRel noFail r col edgeOf) := by
  unfold guardedRel
  refine grel_liftE (fun cell => ?_)
  cases cell with
  | none => exact grel_pure
  | some v => exact grel_execOp _ (ocf_nonconstraint h (hE v))

theorem grel_personRelStep {oracle : Oracle} (h : OnlyConstraintFailures oracle)
    (cols : List String) (a : NodeId) (r : Row) (pr : String × String) :
    GRel (personRelStep oracle cols a r pr) (personRelStep noFail cols a r pr) := by
  unfold personRelStep
  by_cases hc : pr.1 ∈ cols
  · simp only [hc, if_true]
    refine grel_liftE (fun cell => ?_)
    cases cell with
    | none => exact grel_pure
    | some v => exact grel_execOp _ (ocf_nonconstraint h rfl)
  · simp only [hc, if_false]
    exact grel_pure

theorem grel_listRelStep {oracle : Oracle} (h : OnlyConstraintFailures oracle)
    (cols : List String) (a : NodeId) (r : Row) (col rel : String) :
    GRel (listRelStep oracle cols a r col rel) (listRelStep noFail cols a r col rel) := by
  unfold listRelStep
  by_cases hc : col ∈ cols
  · simp only [hc, if_true]
    refine grel_liftE (fun cell => ?_)
    cases cell with
    | none => exact grel_pure
    | some v =>
        by_cases ht : trimChars v.toStr.data = []
        · simp only [ht, if_true]; exact grel_pure
        · simp only [ht, if_false]
          refine grel_runList (fun t => ?_) _
          by_cases he : t = ""
          · simp only [he, if_true]; exact grel_pure
          · simp only [he, if_false]; exact grel_execOp _ (ocf_nonconstraint h rfl)
  · simp only [hc, if_false]
    exact grel_pure

theorem grel_relRow {oracle : Oracle} (h : OnlyConstraintFailures oracle)
    (cols : List String) (r : Row) : GRel (relRow oracle cols r) (relRow noFail cols r) := by
  unfold relRow
  cases hv : r.get "app_id" with
  | none => exact grel_pure
  | some v =>
      refine grel_step (grel_guardedRel h r _ _ (fun c => rfl)) ?_
      refine grel_step (grel_guardedRel h r _ _ (fun c => rfl)) ?_
      refine grel_step (grel_guardedRel h r _ _ (fun c => rfl)) ?_
      refine grel_step (grel_guardedRel h r _ _ (fun c => rfl)) ?_
      refine grel_step (grel_runList (fun pr => grel_personRelStep h cols _ r pr) _) ?_
      exact grel_step (grel_listRelStep h cols _ r _ _) (grel_listRelStep h cols _ r _ _)

theorem grel_migrateRest {oracle : Oracle} (h : OnlyConstraintFailures oracle)
    (df : DataFrame) : GRel (migrateRest oracle df) (migrateRest noFail df) := by
  unfold migrateRest nodePhases
  refine grel_step grel_constraints ?_
  refine grel_step ?_ (grel_runList (fun r => grel_relRow h df.columns r) df.rows)
  refine grel_step (grel_runList (fun r => grel_appRow h r) df.rows) ?_
  refine grel_step ?_ ?_
  · unfold create_category_nodes
    refine grel_liftE (fun pairs => ?_)
    refine grel_liftE (fun catCells => ?_)
    refine grel_step (grel_runList (fun v => ?_) _)
      (grel_runList (fun p => grel_subcatStep h p) _)
    unfold mainCatStep
    exact grel_execOp _ (ocf_nonconstraint h rfl)
  refine grel_step ?_ ?_
  · unfold create_vendor_nodes
    exact grel_liftE (fun pairs => grel_runList (fun p => grel_vendorStep h p) _)
  refine grel_step ?_ ?_
  · unfold create_department_nodes
    refine grel_liftE (fun cells => grel_runList (fun v => ?_) _)
    exact grel_execOp (.mergeNode (deptId v) []) (ocf_nonconstraint h rfl)
  refine grel_runList (fun v => ?_) _
  exact grel_execOp (.mergeNode (personId v) []) (ocf_nonconstraint h rfl)

/-- A run whose store failures hit only constraint declarations reaches the
same store, with the same success status and error message, as a run with no
store failures at all. -/
theorem migrate_constraint_failures_harmless {oracle : Oracle}
    (h : OnlyConstraintFailures oracle) (cf : Bool) (df : DataFrame) (g : GraphDB) :
    gAgree (migrate oracle cf (.ok df) g) (migrate noFail cf (.ok df) g) := by
  unfold migrate
  refine @grel_step (fun st => if cf then clear_database oracle st else .ok st)
    (fun st => if cf then clear_database noFail st else .ok st)
    (migrateRest oracle df) (migrateRest noFail df) ?_
    (grel_migrateRest h df) ⟨g, []⟩ ⟨g, []⟩ rfl
  intro st st' hg
  by_cases hc : cf = true
  · simp only [hc, if_true]
    unfold clear_database
    exact grel_execOp .clear (ocf_nonconstraint h rfl) st st' hg
  · simp only [hc, if_false]
    exact hg

/- ## Trace shape of a successful failure-free run -/

theorem migrate_noFail_start (cf : Bool) (df : DataFrame) (g : GraphDB) :
    migrate noFail cf (.ok df) g
      = migrateRest noFail df ⟨if cf then emptyDB else g, if cf then [Op.clear] else []⟩ := by
  cases cf <;> rfl

theorem migrate_clearFirst_const (df : DataFrame) (g g' : GraphDB) :
    migrate noFail true (.ok df) g = migrate noFail true (.ok df) g' := by
  simp [migrate_noFail_start]

theorem constraints_noFail (st : RunSt) :
    create_constraints_and_indexes noFail st = .ok ⟨st.g, st.trace ++ constraintOps⟩ := by
  rw [create_constraints_char]
  simp [noFail]

/-- A successful failure-free run records: the optional wipe, then exactly the
seven constraint declarations, then only node-materialisation queries, then
only relationship-materialisation queries. -/
theorem migrate_ok_decomp {cf : Bool} {df : DataFrame} {g : GraphDB} {st : RunSt}
    (h : migrate noFail cf (.ok df) g = .ok st) :
    ∃ t₃ t₄, st.trace = (if cf then [Op.clear] else []) ++ constraintOps ++ t₃ ++ t₄
      ∧ (∀ op ∈ t₃, Op.isNodePhaseOp op = true)
      ∧ (∀ op ∈ t₄, Op.isRelOp op = true) := by
  rw [migrate_noFail_start] at h
  unfold migrateRest at h
  rw [constraints_noFail] at h
  simp only [step_ok] at h
  cases hn : nodePhases noFail df
      ⟨(⟨if cf then emptyDB else g, if cf then [Op.clear] else []⟩ : RunSt).g,
       (⟨if cf then emptyDB else g, if cf then [Op.clear] else []⟩ : RunSt).trace
         ++ constraintOps⟩ with
  | err m st₁ => rw [hn] at h; simp at h
  | ok st₁ =>
      rw [hn] at h
      simp only [step_ok] at h
      obtain ⟨t₃, h₃, hp₃⟩ := emits_nodePhases noFail df
        ⟨(⟨if cf then emptyDB else g, if cf then [Op.clear] else []⟩ : RunSt).g,
         (⟨if cf then emptyDB else g, if cf then [Op.clear] else []⟩ : RunSt).trace
           ++ constraintOps⟩
      rw [hn] at h₃
      obtain ⟨t₄, h₄, hp₄⟩ := emits_rel_phase noFail df st₁
      rw [h] at h₄
      refine ⟨t₃, t₄, ?_, hp₃, hp₄⟩
      simp only [stOf_ok] at h₃ h₄
      rw [h₄, h₃]

/- ## Characterising the delimited-list processing -/





theorem setProps_nil (ps : List (String × Cell)) : setProps ps [] = ps := rfl

theorem mergeNode_nil {g : GraphDB} {i : NodeId} (h : g.nodeExists i = true) :
    g.mergeNode i [] = g := by
  unfold GraphDB.mergeNode
  simp only [h, if_true]
  have heach : ∀ n : GNode,
      (if n.id = i then (⟨n.id, setProps n.props []⟩ : GNode) else n) = n := by
    intro n
    by_cases hn : n.id = i
    · rw [if_pos hn, setProps_nil]
    · rw [if_neg hn]
  simp [heach]

theorem dedupFirstAux_congr [DecidableEq α] (l : List α) :
    ∀ s₁ s₂ : List α, (∀ x, x ∈ s₁ ↔ x ∈ s₂) → dedupFirstAux s₁ l = dedupFirstAux s₂ l := by
  induction l with
  | nil => intro s₁ s₂ h; rfl
  | cons x xs ih =>
      intro s₁ s₂ h
      unfold dedupFirstAux
      by_cases hx : x ∈ s₁
      · simp only [hx, if_true, (h x).mp hx, ih s₁ s₂ h]
      · have hx₂ : x ∉ s₂ := fun hc => hx ((h x).mpr hc)
        simp only [hx, hx₂, if_false]
        rw [ih (x :: s₁) (x :: s₂) (by intro y; simp [h y])]

theorem dedupFirstAux_cons [DecidableEq α] (seen : List α) (x : α) (xs : List α) :
    dedupFirstAux seen (x :: xs)
      = if x ∈ seen then dedupFirstAux seen xs else x :: dedupFirstAux (x :: seen) xs := rfl

theorem addTok_cons (seen : List String) (t : String) (ts : List String) :
    addTok seen (t :: ts)
      = if t = "" ∨ t ∈ seen then addTok seen ts else addTok (seen ++ [t]) ts := rfl

theorem addTok_eq (ts : List String) :
    ∀ seen, addTok seen ts = seen ++ dedupFirstAux seen (ts.filter (fun t => !(t == ""))) := by
  induction ts with
  | nil => intro seen; simp [addTok, dedupFirstAux]
  | cons t ts ih =>
      intro seen
      rw [addTok_cons]
      by_cases he : t = ""
      · rw [if_pos (Or.inl he)]
        rw [show (t :: ts).filter (fun t => !(t == "")) = ts.filter (fun t => !(t == ""))
          from by simp [List.filter_cons, he]]
        exact ih seen
      · rw [show (t :: ts).filter (fun t => !(t == "")) = t :: ts.filter (fun t => !(t == ""))
          from by simp [List.filter_cons, he]]
        rw [dedupFirstAux_cons]
        by_cases hm : t ∈ seen
        · rw [if_pos (Or.inr hm), if_pos hm]
          exact ih seen
        · rw [if_neg (by tauto), if_neg hm]
          rw [ih (seen ++ [t])]
          rw [dedupFirstAux_congr _ (seen ++ [t]) (t :: seen) (by intro y; simp; tauto)]
          simp

theorem extId_inj {t t' : String} : extId t = extId t' ↔ t = t' := by
  unfold extId
  constructor
  · intro h
    injection h with h₁ h₂ h₃
    injection h₃
  · intro h; rw [h]

/-- Effect of the per-token loop of the dependency rule: starting from the
Application node, an already-materialised set of seen external references and
their edges, the loop upserts exactly the fresh non-empty tokens. -/
theorem depFold_char (v : Value) (rel : String) (ps : List (String × Cell)) (ts : List String) :
    ∀ (seen : List String) (tr : List Op),
    runList (fun t st₂ => if t = "" then .ok st₂
               else execOp noFail (.depEdge (appId v) rel (extId t)) st₂) ts
      ⟨⟨⟨appId v, ps⟩ :: seen.map (fun t => ⟨extId t, []⟩),
        seen.map (fun t => ⟨appId v, rel, extId t⟩)⟩, tr⟩
    = .ok ⟨⟨⟨appId v, ps⟩ :: (addTok seen ts).map (fun t => ⟨extId t, []⟩),
            (addTok seen ts).map (fun t => ⟨appId v, rel, extId t⟩)⟩,
           tr ++ (ts.filter (fun t => !(t == ""))).map
             (fun t => Op.depEdge (appId v) rel (extId t))⟩ := by
  induction ts with
  | nil => intro seen tr; simp [addTok]
  | cons t ts ih =>
      intro seen tr
      rw [runList_cons]
      by_cases he : t = ""
      · rw [if_pos he, step_ok, ih seen tr, addTok_cons, if_pos (Or.inl he)]
        simp [List.filter_cons, he]
      · rw [if_neg he]
        have hex : GraphDB.nodeExists
            ⟨⟨appId v, ps⟩ :: seen.map (fun t => ⟨extId t, []⟩),
             seen.map (fun t => ⟨appId v, rel, extId t⟩)⟩ (appId v) = true := by
          simp [GraphDB.nodeExists]
        by_cases hm : t ∈ seen
        · have hexT : GraphDB.nodeExists
              ⟨⟨appId v, ps⟩ :: seen.map (fun t => ⟨extId t, []⟩),
               seen.map (fun t => ⟨appId v, rel, extId t⟩)⟩ (extId t) = true := by
            simp only [GraphDB.nodeExists, List.any_cons, List.any_eq_true, Bool.or_eq_true]
            refine Or.inr ⟨⟨extId t, []⟩, List.mem_map.mpr ⟨t, hm, rfl⟩, by simp⟩
          have hedge : (⟨appId v, rel, extId t⟩ : Edge)
              ∈ seen.map (fun t => ⟨appId v, rel, extId t⟩) :=
            List.mem_map.mpr ⟨t, hm, rfl⟩
          rw [show execOp noFail (Op.depEdge (appId v) rel (extId t))
              ⟨⟨⟨appId v, ps⟩ :: seen.map (fun t => ⟨extId t, []⟩),
                seen.map (fun t => ⟨appId v, rel, extId t⟩)⟩, tr⟩
            = .ok ⟨⟨⟨appId v, ps⟩ :: seen.map (fun t => ⟨extId t, []⟩),
                seen.map (fun t => ⟨appId v, rel, extId t⟩)⟩,
                tr ++ [Op.depEdge (appId v) rel (extId t)]⟩ from by
            simp only [execOp, noFail, Bool.false_eq_true, if_false, applyOp, hex, if_true]
            rw [mergeNode_nil hexT]
            simp [GraphDB.mergeEdge, hedge]]
          rw [step_ok, ih seen (tr ++ [Op.depEdge (appId v) rel (extId t)])]
          rw [addTok_cons, if_pos (Or.inr hm)]
          simp [List.filter_cons, he]
        · have hexT : GraphDB.nodeExists
              ⟨⟨appId v, ps⟩ :: seen.map (fun t => ⟨extId t, []⟩),
               seen.map (fun t => ⟨appId v, rel, extId t⟩)⟩ (extId t) = false := by
            simp only [GraphDB.nodeExists, List.any_cons, List.any_eq_true, Bool.or_eq_false_iff]
            constructor
            · simp [appId, extId]
            · simp only [List.any_eq_false]
              intro x hx
              obtain ⟨t', ht', rfl⟩ := List.mem_map.mp hx
              simp only [decide_eq_false_iff_not]
              intro hc
              exact hm ((extId_inj.mp (of_decide_eq_true hc)) ▸ ht')
          have hedge : (⟨appId v, rel, extId t⟩ : Edge)
              ∉ seen.map (fun t => ⟨appId v, rel, extId t⟩) := by
            intro hc
            obtain ⟨x, hx, hxe⟩ := List.mem_map.mp hc
            injection hxe with h₁ h₂ h₃
            exact hm ((extId_inj.mp h₃) ▸ hx)
          rw [show execOp noFail (Op.depEdge (appId v) rel (extId t))
              ⟨⟨⟨appId v, ps⟩ :: seen.map (fun t => ⟨extId t, []⟩),
                seen.map (fun t => ⟨appId v, rel, extId t⟩)⟩, tr⟩
            = .ok ⟨⟨⟨appId v, ps⟩ :: (seen ++ [t]).map (fun t => ⟨extId t, []⟩),
                (seen ++ [t]).map (fun t => ⟨appId v, rel, extId t⟩)⟩,
                tr ++ [Op.depEdge (appId v) rel (extId t)]⟩ from by
            simp only [execOp, noFail, Bool.false_eq_true, if_false, applyOp, hex, if_true]
            unfold GraphDB.mergeNode
            simp only [hexT, Bool.false_eq_true, if_false]
            unfold GraphDB.mergeEdge
            simp only [hedge, if_false]
            simp]
          rw [step_ok, ih (seen ++ [t]) (tr ++ [Op.depEdge (appId v) rel (extId t)])]
          rw [addTok_cons, if_neg (by tauto)]
          simp [List.filter_cons, he]

theorem step_id (r : RunResult) : r.step (fun st => .ok st) = r := by
  cases r <;> rfl

theorem trimChars_of_allSpace {cs : List Char} (h : ∀ c ∈ cs, isSpaceCh c = true) :
    trimChars cs = [] := by
  unfold trimChars
  rw [List.dropWhile_eq_nil_iff.mpr (fun c hc => h c hc)]
  simp

theorem allSpace_of_trimChars_nil {cs : List Char} (h : trimChars cs = []) :
    ∀ c ∈ cs, isSpaceCh c = true := by
  unfold trimChars at h
  rw [List.reverse_eq_nil_iff] at h
  have h₂ : ∀ c ∈ (cs.dropWhile isSpaceCh).reverse, isSpaceCh c = true :=
    List.dropWhile_eq_nil_iff.mp h
  have h₃ : ∀ c ∈ cs.dropWhile isSpaceCh, isSpaceCh c = true := by
    intro c hc
    exact h₂ c (List.mem_reverse.mpr hc)
  intro c hc
  rw [← List.takeWhile_append_dropWhile isSpaceCh cs] at hc
  rcases List.mem_append.mp hc with h | h
  · exact List.mem_takeWhile_imp h
  · exact h₃ c h

theorem splitCommaCore_cons (c : Char) (cs acc : List Char) :
    splitCommaCore (c :: cs) acc
      = if c = ',' then acc.reverse :: splitCommaCore cs [] else splitCommaCore cs (c :: acc) := rfl

theorem splitComma_allSpace {cs : List Char} (h : ∀ c ∈ cs, isSpaceCh c = true) :
    ∀ acc, (∀ c ∈ acc, isSpaceCh c = true) →
      ∀ tok ∈ splitCommaCore cs acc, trimChars tok = [] := by
  induction cs with
  | nil =>
      intro acc hacc tok htok
      simp only [splitCommaCore, List.mem_singleton] at htok
      subst htok
      exact trimChars_of_allSpace (fun c hc => hacc c (List.mem_reverse.mp hc))
  | cons c cs ih =>
      intro acc hacc tok htok
      have hc : isSpaceCh c = true := h c (by simp)
      have hne : ¬(c = ',') := by
        intro hcc
        rw [hcc] at hc
        exact absurd hc (by decide)
      rw [show splitCommaCore (c :: cs) acc = splitCommaCore cs (c :: acc) from by
        rw [splitCommaCore_cons, if_neg hne]] at htok
      exact ih (fun x hx => h x (by simp [hx])) (c :: acc)
        (by intro x hx; rcases List.mem_cons.mp hx with rfl | hx
            · exact hc
            · exact hacc x hx) tok htok

theorem nonEmptyTokens_of_trim_nil {s : String} (h : trimChars s.data = []) :
    nonEmptyTokens s = [] := by
  unfold nonEmptyTokens depTokens
  rw [List.filter_eq_nil_iff]
  intro t ht
  obtain ⟨tok, htok, rfl⟩ := List.mem_map.mp ht
  have : trimChars tok = [] :=
    splitComma_allSpace (allSpace_of_trimChars_nil h) [] (by simp) tok htok
  simp [Value.toStr, this]

theorem mem_dedupFirstAux [DecidableEq α] (l : List α) :
    ∀ seen (x : α), x ∈ dedupFirstAux seen l ↔ x ∈ l ∧ x ∉ seen := by
  induction l with
  | nil => intro seen x; simp [dedupFirstAux]
  | cons a l ih =>
      intro seen x
      rw [dedupFirstAux_cons]
      by_cases ha : a ∈ seen
      · rw [if_pos ha, ih]
        constructor
        · intro ⟨h₁, h₂⟩; exact ⟨by simp [h₁], h₂⟩
        · intro ⟨h₁, h₂⟩
          rcases List.mem_cons.mp h₁ with rfl | h₁
          · exact absurd ha h₂
          · exact ⟨h₁, h₂⟩
      · rw [if_neg ha]
        constructor
        · intro hx
          rcases List.mem_cons.mp hx with rfl | hx
          · exact ⟨by simp, ha⟩
          · have := (ih (a :: seen) x).mp hx
            exact ⟨by simp [this.1], fun hc => this.2 (by simp [hc])⟩
        · intro ⟨h₁, h₂⟩
          rcases List.mem_cons.mp h₁ with rfl | h₁
          · exact List.mem_cons_self x _
          · by_cases hxa : x = a
            · subst hxa; exact List.mem_cons_self x _
            · exact List.mem_cons_of_mem a ((ih (a :: seen) x).mpr
                ⟨h₁, by simp [hxa, h₂]⟩)

theorem mem_dedupFirst [DecidableEq α] {l : List α} {x : α} :
    x ∈ dedupFirst l ↔ x ∈ l := by
  unfold dedupFirst
  rw [mem_dedupFirstAux]
  simp

theorem step_runList_nil (f : α → RunSt → RunResult) (r : RunResult) :
    r.step (runList f []) = r := by
  cases r <;> rfl

theorem relRow_dfDep (s : String) (st : RunSt) :
    relRow noFail extColumns (rowDep s) st
      = (listRelStep noFail extColumns (appId (.int 1)) (rowDep s)
          "depends_on_apps" "DEPENDS_ON" st).step
        (listRelStep noFail extColumns (appId (.int 1)) (rowDep s)
          "integrates_with_apps" "INTEGRATES_WITH") := rfl

theorem listRelStep_integ_skip (s : String) (a : NodeId) (st : RunSt) :
    listRelStep noFail extColumns a (rowDep s) "integrates_with_apps" "INTEGRATES_WITH" st
      = .ok st := by
  unfold listRelStep
  rw [if_neg (by decide)]

/-- Effect of create_relationships on the one-record dataframe whose
dependency-list column holds the raw string s, starting from a store holding
just the Application node: exactly one ExternalApp node and one DEPENDS_ON
edge per distinct non-empty trimmed token, while every non-empty trimmed
token, duplicates included, produces one upsert query. -/
theorem rel_phase_dfDep (s : String) (ps : List (String × Cell)) :
    create_relationships noFail (dfDep s) ⟨⟨[⟨appId (.int 1), ps⟩], []⟩, []⟩
      = .ok ⟨⟨⟨appId (.int 1), ps⟩
                :: (dedupFirst (nonEmptyTokens s)).map (fun t => ⟨extId t, []⟩),
              (dedupFirst (nonEmptyTokens s)).map
                (fun t => ⟨appId (.int 1), "DEPENDS_ON", extId t⟩)⟩,
             (nonEmptyTokens s).map
               (fun t => Op.depEdge (appId (.int 1)) "DEPENDS_ON" (extId t))⟩ := by
  show runList (relRow noFail extColumns) [rowDep s] ⟨⟨[⟨appId (.int 1), ps⟩], []⟩, []⟩ = _
  rw [runList_cons, step_runList_nil, relRow_dfDep]
  rw [show listRelStep noFail extColumns (appId (.int 1)) (rowDep s)
        "depends_on_apps" "DEPENDS_ON" ⟨⟨[⟨appId (.int 1), ps⟩], []⟩, []⟩
      = (if trimChars s.data = []
         then .ok ⟨⟨[⟨appId (.int 1), ps⟩], []⟩, []⟩
         else runList (fun t st₂ => if t = "" then .ok st₂
                else execOp noFail (.depEdge (appId (.int 1)) "DEPENDS_ON" (extId t)) st₂)
              (depTokens (.str s)) ⟨⟨[⟨appId (.int 1), ps⟩], []⟩, []⟩) from rfl]
  by_cases ht : trimChars s.data = []
  · rw [if_pos ht, step_ok, listRelStep_integ_skip, nonEmptyTokens_of_trim_nil ht]
    simp [dedupFirst, dedupFirstAux]
  · rw [if_neg ht]
    have hd := depFold_char (.int 1) "DEPENDS_ON" ps (depTokens (.str s)) [] []
    simp only [List.map_nil] at hd
    rw [hd, step_ok, listRelStep_integ_skip]
    rw [addTok_eq]
    simp only [List.nil_append]
    rfl

/- ## Rows with a null identifier, and absent columns -/

theorem appRow_skip {r : Row} (h : r.get "app_id" = none) (oracle : Oracle) (st : RunSt) :
    appRow oracle r st = .ok st := by
  unfold appRow
  rw [h]

theorem app_phase_skip {df : DataFrame} (h : ∀ r ∈ df.rows, r.get "app_id" = none)
    (oracle : Oracle) (st : RunSt) : create_application_nodes oracle df st = .ok st :=
  runList_skip df.rows (fun r hr st' => appRow_skip (h r hr) oracle st') st

theorem relRow_skip {r : Row} (h : r.get "app_id" = none) (oracle : Oracle)
    (cols : List String) (st : RunSt) : relRow oracle cols r st = .ok st := by
  unfold relRow
  rw [h]

theorem rel_phase_skip {df : DataFrame} (h : ∀ r ∈ df.rows, r.get "app_id" = none)
    (oracle : Oracle) (st : RunSt) : create_relationships oracle df st = .ok st :=
  runList_skip df.rows (fun r hr st' => relRow_skip (h r hr) oracle df.columns st') st

theorem peopleOf_empty {df : DataFrame} (h : ∀ c ∈ roleCols, c ∉ df.columns) :
    peopleOf df = [] := by
  unfold peopleOf
  rw [List.filter_eq_nil_iff.mpr (fun c hc => by simpa using h c hc)]
  rfl

theorem person_phase_skip {df : DataFrame} (h : ∀ c ∈ roleCols, c ∉ df.columns)
    (oracle : Oracle) (st : RunSt) : create_person_nodes oracle df st = .ok st := by
  unfold create_person_nodes
  rw [peopleOf_empty h]
  rfl

theorem listRelStep_skip {cols : List String} {col : String} (h : col ∉ cols)
    (oracle : Oracle) (a : NodeId) (r : Row) (rel : String) (st : RunSt) :
    listRelStep oracle cols a r col rel st = .ok st := by
  unfold listRelStep
  rw [if_neg h]

theorem personRelStep_skip {cols : List String} {pr : String × String} (h : pr.1 ∉ cols)
    (oracle : Oracle) (a : NodeId) (r : Row) (st : RunSt) :
    personRelStep oracle cols a r pr st = .ok st := by
  unfold personRelStep
  rw [if_neg h]

/-- The category phase raises a pandas KeyError when the category column is
absent, before issuing any query. -/
theorem cat_phase_keyError {df : DataFrame} (h : "category" ∉ df.columns)
    (oracle : Oracle) (st : RunSt) :
    create_category_nodes oracle df st = .err ("KeyError: category/subcategory") st := by
  unfold create_category_nodes DataFrame.colPair
  rw [if_neg (by tauto)]
  rfl

/-- Absence of the category column makes the whole run fail. -/
theorem migrate_noCat_fails {df : DataFrame} (h : "category" ∉ df.columns)
    (cf : Bool) (g : GraphDB) : (migrate noFail cf (.ok df) g).isOk = false := by
  rw [migrate_noFail_start]
  unfold migrateRest
  rw [constraints_noFail, step_ok]
  unfold nodePhases
  cases ha : create_application_nodes noFail df
      ⟨(⟨if cf then emptyDB else g, if cf then [Op.clear] else []⟩ : RunSt).g,
       (⟨if cf then emptyDB else g, if cf then [Op.clear] else []⟩ : RunSt).trace
         ++ constraintOps⟩ with
  | err m st₁ => simp [RunResult.isOk]
  | ok st₁ =>
      rw [step_ok, cat_phase_keyError h]
      simp [RunResult.isOk]

/- ## Queries of the four shared-entity node phases -/





theorem midSafe_empty : MidSafe emptyDB := by
  constructor <;> simp [emptyDB]

theorem midSafe_mergeNode {g : GraphDB} {i : NodeId} (props : List (String × Cell))
    (hl : i.label ≠ "Application" ∧ i.label ≠ "ExternalApp") (h : MidSafe g) :
    MidSafe (g.mergeNode i props) := by
  unfold GraphDB.mergeNode
  by_cases he : g.nodeExists i = true
  · simp only [he, if_true]
    refine ⟨?_, h.2⟩
    intro nd hnd
    obtain ⟨nd₀, hnd₀, hmap⟩ := List.mem_map.mp hnd
    by_cases hid : nd₀.id = i
    · rw [if_pos hid] at hmap
      rw [← hmap]
      exact h.1 nd₀ hnd₀
    · rw [if_neg hid] at hmap
      rw [← hmap]
      exact h.1 nd₀ hnd₀
  · simp only [he, Bool.false_eq_true, if_false]
    refine ⟨?_, h.2⟩
    intro nd hnd
    rcases List.mem_append.mp hnd with hnd | hnd
    · exact h.1 nd hnd
    · simp only [List.mem_singleton] at hnd
      rw [hnd]
      exact hl

theorem midSafe_applyOp {op : Op} (hop : op.isMidOp = true) {g : GraphDB} (h : MidSafe g) :
    MidSafe (applyOp op g) := by
  cases op with
  | clear => exact midSafe_empty
  | constraint l a => exact h
  | mergeNode i props =>
      have hlbl : i.label = "Category" ∨ i.label = "Subcategory" ∨ i.label = "Vendor"
          ∨ i.label = "Department" ∨ i.label = "Person" := by
        simp [Op.isMidOp, Op.isCatOp, Op.isVendorOp, Op.isDeptOp, Op.isPersonOp] at hop
        tauto
      refine midSafe_mergeNode props ?_ h
      rcases hlbl with h' | h' | h' | h' | h' <;> rw [h'] <;> exact ⟨by decide, by decide⟩
  | mmEdge a rel b =>
      have hop' : a.label = "Subcategory" ∧ rel = "BELONGS_TO" ∧ b.label = "Category" := by
        simp [Op.isMidOp, Op.isCatOp, Op.isVendorOp, Op.isDeptOp, Op.isPersonOp] at hop
        tauto
      obtain ⟨ha, hrel, hb⟩ := hop'
      simp only [applyOp]
      by_cases hc : (g.nodeExists a && g.nodeExists b) = true
      · rw [if_pos hc]
        unfold GraphDB.mergeEdge
        by_cases hm : (⟨a, rel, b⟩ : Edge) ∈ g.edges
        · rw [if_pos hm]; exact h
        · rw [if_neg hm]
          refine ⟨h.1, ?_⟩
          intro e he
          rcases List.mem_append.mp he with he | he
          · exact h.2 e he
          · simp only [List.mem_singleton] at he
            rw [he]
            exact ⟨ha, hrel, hb⟩
      · rw [if_neg hc]; exact h
  | depEdge a rel b =>
      exact absurd hop (by simp [Op.isMidOp, Op.isCatOp, Op.isVendorOp,
        Op.isDeptOp, Op.isPersonOp])

theorem midSafe_applyOps {ops : List Op} (hops : ∀ op ∈ ops, Op.isMidOp op = true) :
    ∀ {g : GraphDB}, MidSafe g → MidSafe (applyOps ops g) := by
  induction ops with
  | nil => exact fun h => h
  | cons op ops ih =>
      intro g h
      show MidSafe (applyOps ops (applyOp op g))
      exact ih (fun o ho => hops o (by simp [ho]))
        (midSafe_applyOp (hops op (by simp)) h)

theorem applyOps_id_of {l : List Op} (hl : ∀ op ∈ l, ∀ g, applyOp op g = g)
    (g : GraphDB) : applyOps l g = g := by
  induction l with
  | nil => rfl
  | cons a l ih =>
      show applyOps l (applyOp a g) = g
      rw [hl a (by simp) g]
      exact ih (fun op hop => hl op (by simp [hop]))

/- ## Edge endpoints always carry distinct labels -/



theorem appOp_edgeSafe {op : Op} (h : op.isAppOp = true) : op.edgeSafe = true := by
  cases op <;> first | rfl | simp [Op.isAppOp] at h

theorem catOp_edgeSafe {op : Op} (h : op.isCatOp = true) : op.edgeSafe = true := by
  cases op with
  | mmEdge a rel b =>
      simp only [Op.isCatOp, Bool.and_eq_true, beq_iff_eq] at h
      simp only [Op.edgeSafe, h.1.1, h.2, Bool.not_eq_true']
      decide
  | mergeNode i props => rfl
  | clear => rfl
  | constraint l a => rfl
  | depEdge a rel b => simp [Op.isCatOp] at h

theorem vendorOp_edgeSafe {op : Op} (h : op.isVendorOp = true) : op.edgeSafe = true := by
  cases op <;> first | rfl | simp [Op.isVendorOp] at h

theorem deptOp_edgeSafe {op : Op} (h : op.isDeptOp = true) : op.edgeSafe = true := by
  cases op <;> first | rfl | simp [Op.isDeptOp] at h

theorem personOp_edgeSafe {op : Op} (h : op.isPersonOp = true) : op.edgeSafe = true := by
  cases op <;> first | rfl | simp [Op.isPersonOp] at h

theorem relOp_edgeSafe {op : Op} (h : op.isRelOp = true) : op.edgeSafe = true := by
  cases op with
  | mmEdge a rel b =>
      have hne : a.label ≠ b.label := by
        simp only [Op.isRelOp, Bool.or_eq_true, Bool.and_eq_true, beq_iff_eq] at h
        intro hc
        rcases h with ⟨ha, hb⟩ | ⟨ha, hb⟩
        · rw [ha] at hc
          rcases hb with ((hb | hb) | hb) | hb <;> rw [hb] at hc <;> exact absurd hc (by decide)
        · rw [ha, hb] at hc
          exact absurd hc (by decide)
      simp [Op.edgeSafe, hne]
  | depEdge a rel b =>
      simp only [Op.isRelOp, Bool.and_eq_true, beq_iff_eq] at h
      simp only [Op.edgeSafe, h.1, h.2, Bool.not_eq_true']
      decide
  | mergeNode i props => simp [Op.isRelOp] at h
  | clear => simp [Op.isRelOp] at h
  | constraint l a => simp [Op.isRelOp] at h

theorem constraintOp_edgeSafe {op : Op} (h : op.isConstraintOp = true) : op.edgeSafe = true := by
  cases op <;> first | rfl | simp [Op.isConstraintOp] at h

theorem migrateRest_emits_edgeSafe (oracle : Oracle) (df : DataFrame) :
    EmitsOnly Op.edgeSafe (migrateRest oracle df) := by
  unfold migrateRest nodePhases
  refine emitsOnly_step _ (emitsOnly_mono (fun op => constraintOp_edgeSafe)
    (emitsOnly_constraints oracle)) ?_
  refine emitsOnly_step _ ?_ (emitsOnly_mono (fun op => relOp_edgeSafe)
    (emits_rel_phase oracle df))
  refine emitsOnly_step _ (emitsOnly_mono (fun op => appOp_edgeSafe)
    (emits_app_phase oracle df)) ?_
  refine emitsOnly_step _ (emitsOnly_mono (fun op => catOp_edgeSafe)
    (emits_cat_phase oracle df)) ?_
  refine emitsOnly_step _ (emitsOnly_mono (fun op => vendorOp_edgeSafe)
    (emits_vendor_phase oracle df)) ?_
  exact emitsOnly_step _ (emitsOnly_mono (fun op => deptOp_edgeSafe)
    (emits_dept_phase oracle df))
    (emitsOnly_mono (fun op => personOp_edgeSafe) (emits_person_phase oracle df))

/-- Every query any run of migrate records has distinct endpoint labels. -/
theorem migrate_trace_edgeSafe (oracle : Oracle) (cf : Bool)
    (load : Except String DataFrame) (g : GraphDB) :
    ∀ op ∈ ((migrate oracle cf load g).stOf).trace, Op.edgeSafe op = true := by
  cases load with
  | error m => simp [migrate]
  | ok df =>
      have hall : EmitsOnly Op.edgeSafe (fun st =>
          ((if cf then clear_database oracle st else .ok st).step (migrateRest oracle df))) := by
        refine emitsOnly_step _ ?_ (migrateRest_emits_edgeSafe oracle df)
        intro st
        by_cases hc : cf = true
        · simp only [hc, if_true]
          exact emitsOnly_execOp _ oracle .clear rfl st
        · simp only [hc, if_false]
          exact ⟨[], by simp⟩
      obtain ⟨ext, hext, hp⟩ := hall ⟨g, []⟩
      intro op hop
      apply hp
      show op ∈ ext
      have : ((migrate oracle cf (.ok df) g).stOf).trace = [] ++ ext := by
        rw [show migrate oracle cf (.ok df) g
            = (if cf then clear_database oracle ⟨g, []⟩ else .ok ⟨g, []⟩).step
                (migrateRest oracle df) from rfl]
        simpa using hext
      rw [this] at hop
      simpa using hop

theorem noSelfLoop_applyOp {op : Op} (h : op.edgeSafe = true) {g : GraphDB}
    (hg : NoSelfLoop g) : NoSelfLoop (applyOp op g) := by
  cases op with
  | clear => intro e he; simp [applyOp, emptyDB] at he
  | constraint l a => exact hg
  | mergeNode i props =>
      intro e he
      simp only [applyOp] at he
      unfold GraphDB.mergeNode at he
      by_cases hex : g.nodeExists i = true
      · rw [if_pos hex] at he; exact hg e he
      · rw [if_neg (by simp [hex])] at he; exact hg e he
  | mmEdge a rel b =>
      have hne : a.label ≠ b.label := by simpa [Op.edgeSafe] using h
      intro e he
      simp only [applyOp] at he
      by_cases hc : (g.nodeExists a && g.nodeExists b) = true
      · rw [if_pos hc] at he
        unfold GraphDB.mergeEdge at he
        by_cases hm : (⟨a, rel, b⟩ : Edge) ∈ g.edges
        · rw [if_pos hm] at he; exact hg e he
        · rw [if_neg hm] at he
          rcases List.mem_append.mp he with he | he
          · exact hg e he
          · simp only [List.mem_singleton] at he
            rw [he]
            exact fun hc' => hne hc'
      · rw [if_neg hc] at he; exact hg e he
  | depEdge a rel b =>
      have hne : a.label ≠ b.label := by simpa [Op.edgeSafe] using h
      intro e he
      simp only [applyOp] at he
      by_cases hc : g.nodeExists a = true
      · rw [if_pos hc] at he
        unfold GraphDB.mergeEdge at he
        by_cases hm : (⟨a, rel, b⟩ : Edge) ∈ (g.mergeNode b []).edges
        · rw [if_pos hm] at he
          exact hg e (by
            unfold GraphDB.mergeNode at he
            by_cases hex : g.nodeExists b = true
            · rw [if_pos hex] at he; exact he
            · rw [if_neg (by simp [hex])] at he; exact he)
        · rw [if_neg hm] at he
          have hedges : (g.mergeNode b []).edges = g.edges := by
            unfold GraphDB.mergeNode
            by_cases hex : g.nodeExists b = true
            · rw [if_pos hex]
            · rw [if_neg (by simp [hex])]
          rw [hedges] at he
          rcases List.mem_append.mp he with he | he
          · exact hg e he
          · simp only [List.mem_singleton] at he
            rw [he]
            exact fun hc' => hne hc'
      · rw [if_neg hc] at he; exact hg e he

theorem noSelfLoop_applyOps {ops : List Op} (h : ∀ op ∈ ops, Op.edgeSafe op = true) :
    ∀ {g : GraphDB}, NoSelfLoop g → NoSelfLoop (applyOps ops g) := by
  induction ops with
  | nil => exact fun hg => hg
  | cons op ops ih =>
      intro g hg
      show NoSelfLoop (applyOps ops (applyOp op g))
      exact ih (fun o ho => h o (by simp [ho])) (noSelfLoop_applyOp (h op (by simp)) hg)

/- ## The claims -/

/-- C1: running the full migration (clear-first, the migrate() default) twice
on the identical input dataframe yields after the second run exactly the
state of the first run — same nodes with the same key and attribute values,
same edges — and that state has pairwise-distinct node keys (app_id for
Application, name for the other kinds) and pairwise-distinct edges (endpoint
pair plus relationship kind): every write is a keyed upsert, so a rerun
creates no duplicate node and no duplicate edge. -/
theorem C1_full_migration_idempotent (df : DataFrame) (g : GraphDB) (st₁ : RunSt)
    (h : migrate noFail true (.ok df) g = .ok st₁) :
    migrate noFail true (.ok df) st₁.g = .ok st₁ ∧ GoodDB st₁.g := by
  constructor
  · rw [migrate_clearFirst_const df st₁.g g]
    exact h
  · have hk := keeps_migrateRest opClosed_goodDB noFail df
      (⟨emptyDB, [Op.clear]⟩ : RunSt) goodDB_empty
    rw [migrate_noFail_start] at h
    simp only [if_true] at h
    rw [h] at hk
    exact hk

theorem C1_full_migration_idempotent_witness :
    migrate noFail true (.ok dfFoo)
        ((migrate noFail true (.ok dfFoo) emptyDB).stOf).g
      = migrate noFail true (.ok dfFoo) emptyDB
    ∧ GoodDB ((migrate noFail true (.ok dfFoo) emptyDB).stOf).g := by
  have h : migrate noFail true (.ok dfFoo) emptyDB
      = .ok ((migrate noFail true (.ok dfFoo) emptyDB).stOf) := by decide
  have hc := C1_full_migration_idempotent dfFoo emptyDB _ h
  exact ⟨by rw [hc.1]; exact h.symm, hc.2⟩

/-- C4: a non-null delimited-list value is split on comma and each token is
trimmed; each distinct non-empty token yields one ExternalApp node upserted
by name and one DEPENDS_ON edge from the record's Application node, empty
tokens are discarded, and a token repeated in the same record yields a single
edge even though each repetition issues an upsert query; in particular
"A, B,,B" yields exactly the two edges to A and to B. -/
theorem C4_delimited_list_tokens (s : String) (ps : List (String × Cell)) :
    create_relationships noFail (dfDep s) ⟨⟨[⟨appId (.int 1), ps⟩], []⟩, []⟩
      = .ok ⟨⟨⟨appId (.int 1), ps⟩
                :: (dedupFirst (nonEmptyTokens s)).map (fun t => ⟨extId t, []⟩),
              (dedupFirst (nonEmptyTokens s)).map
                (fun t => ⟨appId (.int 1), "DEPENDS_ON", extId t⟩)⟩,
             (nonEmptyTokens s).map
               (fun t => Op.depEdge (appId (.int 1)) "DEPENDS_ON" (extId t))⟩
    ∧ dedupFirst (nonEmptyTokens "A, B,,B") = ["A", "B"]
    ∧ ((migrate noFail true (.ok (dfDep "A, B,,B")) emptyDB).stOf).g.edges
        = [⟨appId (.int 1), "DEPENDS_ON", extId "A"⟩,
           ⟨appId (.int 1), "DEPENDS_ON", extId "B"⟩] :=
  ⟨rel_phase_dfDep s ps, by decide, by decide⟩

/-- C5: orchestrator order of a successful run — the wipe appears exactly
when clear_first is true and first, then the seven constraint declarations,
then only node-materialisation queries (the six entity kinds, including the
Subcategory-to-Category link the category phase owns), and only after all of
them the relationship-materialisation queries. -/
theorem C5_orchestrator_order (cf : Bool) (df : DataFrame) (g : GraphDB) (st : RunSt)
    (h : migrate noFail cf (.ok df) g = .ok st) :
    ∃ t₃ t₄, st.trace = (if cf then [Op.clear] else []) ++ constraintOps ++ t₃ ++ t₄
      ∧ (∀ op ∈ t₃, Op.isNodePhaseOp op = true)
      ∧ (∀ op ∈ t₄, Op.isRelOp op = true)
      ∧ (Op.clear ∈ st.trace ↔ cf = true) := by
  obtain ⟨t₃, t₄, htr, hp₃, hp₄⟩ := migrate_ok_decomp h
  refine ⟨t₃, t₄, htr, hp₃, hp₄, ?_, ?_⟩
  · intro hcl
    by_contra hcf
    have hcf' : cf = false := by revert hcf; cases cf <;> simp
    rw [hcf'] at htr
    simp only [if_false, Bool.false_eq_true, List.nil_append] at htr
    rw [htr] at hcl
    rcases List.mem_append.mp hcl with hcl | hcl
    · rcases List.mem_append.mp hcl with hcl | hcl
      · exact absurd hcl (by decide)
      · exact absurd (hp₃ _ hcl) (by decide)
    · exact absurd (hp₄ _ hcl) (by decide)
  · intro hcf
    rw [hcf] at htr
    simp only [if_true] at htr
    rw [htr]
    simp

theorem C5_orchestrator_order_witness :
    ∃ t₃ t₄, ((migrate noFail true (.ok dfFoo) emptyDB).stOf).trace
        = (if true then [Op.clear] else []) ++ constraintOps ++ t₃ ++ t₄
      ∧ (∀ op ∈ t₃, Op.isNodePhaseOp op = true)
      ∧ (∀ op ∈ t₄, Op.isRelOp op = true)
      ∧ (Op.clear ∈ ((migrate noFail true (.ok dfFoo) emptyDB).stOf).trace ↔ true = true) :=
  C5_orchestrator_order true dfFoo emptyDB _ (by decide)

/-- C6: an edge rule that matches both endpoints by key (MATCH, MATCH, MERGE)
is a silent no-op when an endpoint node is missing: no error is raised, zero
edges are created, and the store is unchanged — only the attempted query is
logged. -/
theorem C6_missing_endpoint_noop (g : GraphDB) (tr : List Op) (a b : NodeId) (rel : String)
    (h : g.nodeExists a = false ∨ g.nodeExists b = false) :
    execOp noFail (.mmEdge a rel b) ⟨g, tr⟩ = .ok ⟨g, tr ++ [.mmEdge a rel b]⟩ := by
  unfold execOp noFail
  simp only [Bool.false_eq_true, if_false]
  show RunResult.ok ⟨applyOp (.mmEdge a rel b) g, tr ++ [.mmEdge a rel b]⟩ = _
  simp only [applyOp]
  rcases h with h | h <;> rw [if_neg (by simp [h])]

theorem C6_missing_endpoint_noop_witness :
    execOp noFail (.mmEdge (appId (.int 1)) "SUPPLIED_BY" (vendorId (.str "Acme")))
        ⟨⟨[⟨appId (.int 1), []⟩], []⟩, []⟩
      = .ok ⟨⟨[⟨appId (.int 1), []⟩], []⟩,
             [.mmEdge (appId (.int 1)) "SUPPLIED_BY" (vendorId (.str "Acme"))]⟩ :=
  C6_missing_endpoint_noop _ _ _ _ _ (Or.inr (by decide))

/-- C10: when the dataset load raises, migrate propagates that error with an
empty query trace and the store exactly as it was: the wipe, the constraint
declarations and every node and edge write are issued only after a successful
load. -/
theorem C10_load_failure_no_writes (oracle : Oracle) (cf : Bool) (e : String) (g : GraphDB) :
    migrate oracle cf (.error e) g = .err e ⟨g, []⟩ := rfl





theorem nodePhaseOp_not_constraint {op : Op} (h : op.isNodePhaseOp = true) :
    op.isConstraintOp = false := by
  cases op with
  | constraint l a =>
      simp [Op.isNodePhaseOp, Op.isAppOp, Op.isCatOp, Op.isVendorOp, Op.isDeptOp,
        Op.isPersonOp] at h
  | clear => rfl
  | mergeNode i props => rfl
  | mmEdge a rel b => rfl
  | depEdge a rel b => rfl

theorem relOp_not_constraint {op : Op} (h : op.isRelOp = true) :
    op.isConstraintOp = false := by
  cases op with
  | constraint l a => simp [Op.isRelOp] at h
  | clear => rfl
  | mergeNode i props => rfl
  | mmEdge a rel b => rfl
  | depEdge a rel b => rfl

theorem notConstraint_notExternal {op : Op} (h : op.isConstraintOp = false) :
    isExternalConstraint op = false := by
  cases op with
  | constraint l a => simp [Op.isConstraintOp] at h
  | clear => rfl
  | mergeNode i props => rfl
  | mmEdge a rel b => rfl
  | depEdge a rel b => rfl

/-- C7: the error-propagation policy. First, a run whose store failures hit
only constraint declarations has the same success status, error message and
final store as a failure-free run: constraint failures are swallowed.
Second, the constraint phase never aborts, leaves the store untouched, and
still executes every declaration the store does not reject. Third, any run
that ends in an error leaves the store equal to the effect of exactly the
queries executed before the failure — the remaining steps are skipped and
nothing is rolled back. -/
theorem C7_error_policy :
    (∀ oracle : Oracle, OnlyConstraintFailures oracle →
       ∀ (cf : Bool) (df : DataFrame) (g : GraphDB),
         gAgree (migrate oracle cf (.ok df) g) (migrate noFail cf (.ok df) g))
    ∧ (∀ (oracle : Oracle) (st : RunSt),
         create_constraints_and_indexes oracle st
           = .ok ⟨st.g, st.trace ++ constraintOps.filter (fun op => !(oracle op))⟩)
    ∧ (∀ (oracle : Oracle) (cf : Bool) (load : Except String DataFrame) (g : GraphDB)
         (m : String) (st : RunSt), migrate oracle cf load g = .err m st →
         st.g = applyOps st.trace g) := by
  refine ⟨fun oracle h cf df g => migrate_constraint_failures_harmless h cf df g,
    fun oracle st => create_constraints_char oracle st,
    fun oracle cf load g m st h => ?_⟩
  have hrep := migrate_keeps (opClosed_replay g) oracle cf load g rfl
  rw [h] at hrep
  simpa using hrep

theorem C7_error_policy_witness :
    gAgree (migrate oracleOneConstraint true (.ok dfFoo) emptyDB)
        (migrate noFail true (.ok dfFoo) emptyDB)
    ∧ create_constraints_and_indexes oracleOneConstraint (⟨emptyDB, []⟩ : RunSt)
        = .ok ⟨emptyDB, constraintOps.filter (fun op => !(oracleOneConstraint op))⟩
    ∧ ((migrate oracleAppWrites true (.ok dfFoo) emptyDB).stOf).g
        = applyOps ((migrate oracleAppWrites true (.ok dfFoo) emptyDB).stOf).trace emptyDB := by
  have hocf : OnlyConstraintFailures oracleOneConstraint := by
    intro op h
    have : op = Op.constraint "Category" "name" := by
      have := of_decide_eq_true (by simpa [oracleOneConstraint] using h)
      exact this
    rw [this]
    rfl
  refine ⟨C7_error_policy.1 oracleOneConstraint hocf true dfFoo emptyDB, ?_, ?_⟩
  · have := C7_error_policy.2.1 oracleOneConstraint (⟨emptyDB, []⟩ : RunSt)
    simpa using this
  · exact C7_error_policy.2.2 oracleAppWrites true (.ok dfFoo) emptyDB "store failure"
      ((migrate oracleAppWrites true (.ok dfFoo) emptyDB).stOf) (by decide)

theorem C8_counterexample :
    ((migrate noFail true (.ok dfFoo) emptyDB).stOf).trace.all
        (fun op => !(isExternalConstraint op)) = true := by decide

/-- C8 amended: every successful failure-free run declares, before any node
or edge write, exactly seven uniqueness constraints — Application.app_id,
Application.name, and the name attribute of Category, Subcategory, Vendor,
Department and Person — and no constraint at all for the ExternalApp
(ExternalReference) kind. -/
theorem C8_constraints_amended (cf : Bool) (df : DataFrame) (g : GraphDB) (st : RunSt)
    (h : migrate noFail cf (.ok df) g = .ok st) :
    st.trace.filter Op.isConstraintOp = constraintOps
    ∧ constraintOps
        = [.constraint "Application" "app_id", .constraint "Application" "name",
           .constraint "Category" "name", .constraint "Subcategory" "name",
           .constraint "Vendor" "name", .constraint "Department" "name",
           .constraint "Person" "name"]
    ∧ (∀ op ∈ st.trace, isExternalConstraint op = false)
    ∧ ∃ pre post, st.trace = pre ++ constraintOps ++ post
        ∧ (∀ op ∈ pre, op.isNodePhaseOp = false ∧ op.isRelOp = false)
        ∧ (∀ op ∈ post, op.isConstraintOp = false) := by
  obtain ⟨t₃, t₄, htr, hp₃, hp₄⟩ := migrate_ok_decomp h
  have ht₃c : ∀ op ∈ t₃, op.isConstraintOp = false :=
    fun op hop => nodePhaseOp_not_constraint (hp₃ op hop)
  have ht₄c : ∀ op ∈ t₄, op.isConstraintOp = false :=
    fun op hop => relOp_not_constraint (hp₄ op hop)
  have hpre : ∀ op ∈ (if cf then [Op.clear] else []), op.isConstraintOp = false := by
    cases cf <;> simp [Op.isConstraintOp]
  refine ⟨?_, rfl, ?_, ?_⟩
  · have h1 : (if cf then [Op.clear] else []).filter Op.isConstraintOp = [] :=
      List.filter_eq_nil_iff.mpr (fun op hop => by simp [hpre op hop])
    have h2 : constraintOps.filter Op.isConstraintOp = constraintOps := by decide
    have h3 : t₃.filter Op.isConstraintOp = [] :=
      List.filter_eq_nil_iff.mpr (fun op hop => by simp [ht₃c op hop])
    have h4 : t₄.filter Op.isConstraintOp = [] :=
      List.filter_eq_nil_iff.mpr (fun op hop => by simp [ht₄c op hop])
    rw [htr]
    simp only [List.filter_append, h1, h2, h3, h4]
    simp
  · intro op hop
    rw [htr] at hop
    rcases List.mem_append.mp hop with hop | hop
    · rcases List.mem_append.mp hop with hop | hop
      · rcases List.mem_append.mp hop with hop | hop
        · exact notConstraint_notExternal (hpre op hop)
        · have hall : ∀ o ∈ constraintOps, isExternalConstraint o = false := by decide
          exact hall op hop
      · exact notConstraint_notExternal (ht₃c op hop)
    · exact notConstraint_notExternal (ht₄c op hop)
  · refine ⟨if cf then [Op.clear] else [], t₃ ++ t₄, ?_, ?_, ?_⟩
    · rw [htr]
      simp [List.append_assoc]
    · cases cf <;> simp [Op.isNodePhaseOp, Op.isAppOp, Op.isCatOp, Op.isVendorOp,
        Op.isDeptOp, Op.isPersonOp, Op.isRelOp]
    · intro op hop
      rcases List.mem_append.mp hop with hop | hop
      · exact ht₃c op hop
      · exact ht₄c op hop

theorem C8_constraints_amended_witness :
    ((migrate noFail true (.ok dfFoo) emptyDB).stOf).trace.filter Op.isConstraintOp
      = constraintOps := by
  have h : migrate noFail true (.ok dfFoo) emptyDB
      = .ok ((migrate noFail true (.ok dfFoo) emptyDB).stOf) := by decide
  exact (C8_constraints_amended true dfFoo emptyDB _ h).1

theorem C9_counterexample :
    (migrate noFail true (.ok dfNoCat) emptyDB).isOk = false := by decide

/-- C9 amended: presence is checked before access only for the three role
columns and the two delimited-list columns, whose absence silently skips the
feature; the category column is read unconditionally, and its absence aborts
the entire run with an error instead of skipping the category features. -/
theorem C9_column_presence_amended :
    (∀ (df : DataFrame) (oracle : Oracle) (st : RunSt),
       (∀ c ∈ roleCols, c ∉ df.columns) → create_person_nodes oracle df st = .ok st)
    ∧ (∀ (oracle : Oracle) (cols : List String) (a : NodeId) (r : Row) (rel : String)
         (st : RunSt) (col : String), col ∉ cols →
         listRelStep oracle cols a r col rel st = .ok st)
    ∧ (∀ (oracle : Oracle) (cols : List String) (a : NodeId) (r : Row)
         (pr : String × String) (st : RunSt), pr.1 ∉ cols →
         personRelStep oracle cols a r pr st = .ok st)
    ∧ (∀ (df : DataFrame) (cf : Bool) (g : GraphDB), "category" ∉ df.columns →
         (migrate noFail cf (.ok df) g).isOk = false) :=
  ⟨fun df oracle st h => person_phase_skip h oracle st,
   fun oracle cols a r rel st col h => listRelStep_skip h oracle a r rel st,
   fun oracle cols a r pr st h => personRelStep_skip h oracle a r st,
   fun df cf g h => migrate_noCat_fails h cf g⟩

theorem C9_column_presence_amended_witness :
    create_person_nodes noFail dfFoo (⟨emptyDB, []⟩ : RunSt) = .ok ⟨emptyDB, []⟩
    ∧ (migrate noFail true (.ok dfNoCat) emptyDB).isOk = false :=
  ⟨C9_column_presence_amended.1 dfFoo noFail ⟨emptyDB, []⟩ (by decide),
   C9_column_presence_amended.2.2.2 dfNoCat true emptyDB (by decide)⟩

theorem C2_counterexample :
    (⟨catId (.str "X"), [("type", some (.str "main"))]⟩ : GNode)
      ∈ ((migrate noFail true (.ok dfNull) emptyDB).stOf).g.nodes
    ∧ (⟨subcatId (.str "Y"), "BELONGS_TO", catId (.str "X")⟩ : Edge)
      ∈ ((migrate noFail true (.ok dfNull) emptyDB).stOf).g.edges := by decide

/-- C2 amended: a record whose primary identifier is null contributes no
Application node, no ExternalApp node, and no edge incident to an Application
or Person node — the application-node phase and the relationship phase skip
it — but the shared-entity phases still read its other columns, so Category,
Subcategory, Vendor, Department and Person nodes and a
Subcategory-BELONGS_TO-Category edge can still be created from such a
record. -/
theorem C2_null_identifier_amended (df : DataFrame) (g : GraphDB) (st : RunSt)
    (hnull : ∀ r ∈ df.rows, r.get "app_id" = none)
    (h : migrate noFail true (.ok df) g = .ok st) :
    (∀ nd ∈ st.g.nodes, nd.id.label ≠ "Application" ∧ nd.id.label ≠ "ExternalApp")
    ∧ (∀ e ∈ st.g.edges, e.src.label = "Subcategory" ∧ e.rel = "BELONGS_TO"
        ∧ e.dst.label = "Category") := by
  have hrep := migrate_keeps (opClosed_replay g) noFail true (.ok df) g rfl
  rw [h] at hrep
  simp only [stOf_ok] at hrep
  rw [migrate_noFail_start] at h
  simp only [if_true] at h
  unfold migrateRest at h
  rw [constraints_noFail] at h
  simp only [step_ok] at h
  unfold nodePhases at h
  rw [app_phase_skip hnull noFail] at h
  simp only [step_ok] at h
  have h' : ((create_category_nodes noFail df
        (⟨emptyDB, [Op.clear] ++ constraintOps⟩ : RunSt)).step
      (fun st₂ => (create_vendor_nodes noFail df st₂).step
        (fun st₃ => (create_department_nodes noFail df st₃).step
          (create_person_nodes noFail df)))).step (create_relationships noFail df)
      = .ok st := h
  have hmid : EmitsOnly Op.isMidOp (fun st₁ => (create_category_nodes noFail df st₁).step
      (fun st₂ => (create_vendor_nodes noFail df st₂).step
        (fun st₃ => (create_department_nodes noFail df st₃).step
          (create_person_nodes noFail df)))) := by
    refine emitsOnly_step _ (emitsOnly_mono ?_ (emits_cat_phase noFail df)) ?_
    · intro op hh; simp [Op.isMidOp, hh]
    refine emitsOnly_step _ (emitsOnly_mono ?_ (emits_vendor_phase noFail df)) ?_
    · intro op hh; simp [Op.isMidOp, hh]
    exact emitsOnly_step _
      (emitsOnly_mono (fun op hh => by simp [Op.isMidOp, hh]) (emits_dept_phase noFail df))
      (emitsOnly_mono (fun op hh => by simp [Op.isMidOp, hh]) (emits_person_phase noFail df))
  obtain ⟨ext, hext, hp⟩ := hmid (⟨emptyDB, [Op.clear] ++ constraintOps⟩ : RunSt)
  simp only [] at hext
  cases hm : (create_category_nodes noFail df
        (⟨emptyDB, [Op.clear] ++ constraintOps⟩ : RunSt)).step
      (fun st₂ => (create_vendor_nodes noFail df st₂).step
        (fun st₃ => (create_department_nodes noFail df st₃).step
          (create_person_nodes noFail df))) with
  | err m st₁ => rw [hm] at h'; simp at h'
  | ok st₁ =>
      rw [hm] at h'
      simp only [step_ok] at h'
      rw [rel_phase_skip hnull noFail] at h'
      have hst : st₁ = st := by
        injection h'
      subst hst
      rw [hm] at hext
      simp only [stOf_ok] at hext
      rw [hext] at hrep
      have hgfin : st₁.g = applyOps ext emptyDB := by
        rw [hrep, applyOps_append, applyOps_append,
          show applyOps [Op.clear] g = emptyDB from rfl,
          applyOps_id_of constraintOps_applyOp_id]
      have hms := midSafe_applyOps hp midSafe_empty
      rw [← hgfin] at hms
      exact ⟨hms.1, hms.2⟩

theorem C2_null_identifier_amended_witness :
    (∀ nd ∈ ((migrate noFail true (.ok dfNull) emptyDB).stOf).g.nodes,
       nd.id.label ≠ "Application" ∧ nd.id.label ≠ "ExternalApp")
    ∧ (∀ e ∈ ((migrate noFail true (.ok dfNull) emptyDB).stOf).g.edges,
       e.src.label = "Subcategory" ∧ e.rel = "BELONGS_TO" ∧ e.dst.label = "Category") := by
  have h : migrate noFail true (.ok dfNull) emptyDB
      = .ok ((migrate noFail true (.ok dfNull) emptyDB).stOf) := by decide
  exact C2_null_identifier_amended dfNull emptyDB _ (by decide) h

theorem C3_counterexample :
    (⟨appId (.int 1), "DEPENDS_ON", extId "Foo"⟩ : Edge)
      ∈ ((migrate noFail true (.ok dfSelf) emptyDB).stOf).g.edges := by decide

/-- C3 amended: the migration performs no self-reference filtering — a
dependency token equal to the record's own name still yields a DEPENDS_ON
edge, pointing at the ExternalApp node of that name — yet no self-loop edge
(an edge whose two endpoints are the same node) ever arises, because every
edge the migration creates connects nodes with distinct labels. -/
theorem C3_self_reference_amended :
    (∀ (s n : String) (ps : List (String × Cell)), n ∈ nonEmptyTokens s →
       (⟨appId (.int 1), "DEPENDS_ON", extId n⟩ : Edge)
         ∈ ((create_relationships noFail (dfDep s)
              ⟨⟨[⟨appId (.int 1), ps⟩], []⟩, []⟩).stOf).g.edges)
    ∧ (∀ (oracle : Oracle) (cf : Bool) (load : Except String DataFrame) (g : GraphDB),
        NoSelfLoop g → ∀ e ∈ ((migrate oracle cf load g).stOf).g.edges, e.src ≠ e.dst) := by
  constructor
  · intro s n ps hn
    rw [rel_phase_dfDep s ps]
    simp only [stOf_ok]
    exact List.mem_map.mpr ⟨n, mem_dedupFirst.mpr hn, rfl⟩
  · intro oracle cf load g hg e he hc
    have hrep := migrate_keeps (opClosed_replay g) oracle cf load g rfl
    have hsafe := migrate_trace_edgeSafe oracle cf load g
    have hns := noSelfLoop_applyOps hsafe hg
    rw [← hrep] at hns
    exact hns e he (by rw [hc])

theorem C3_self_reference_amended_witness :
    (⟨appId (.int 1), "DEPENDS_ON", extId "Foo"⟩ : Edge)
      ∈ ((create_relationships noFail (dfDep "Foo")
           ⟨⟨[⟨appId (.int 1), []⟩], []⟩, []⟩).stOf).g.edges
    ∧ (∀ e ∈ ((migrate noFail true (.ok dfSelf) emptyDB).stOf).g.edges, e.src ≠ e.dst) :=
  ⟨C3_self_reference_amended.1 "Foo" "Foo" [] (by decide),
   C3_self_reference_amended.2 noFail true (.ok dfSelf) emptyDB
     (by intro e he; simp [emptyDB] at he)⟩
